import Mathlib

/-!
Verification development for the fatiando 3D potential-field inversion code
(`fatiando/potential/harvester.py`, `fatiando/inversion/pgrav3d.py`).

The Python code is translated into a shallow embedding:

* physical-property dictionaries become association lists with natural-number
  keys (the source uses string keys such as `'density'`; only key identity and
  the stored rational value matter, so keys are modelled by `ℕ` with
  `densityKey = 0`);
* numpy float arrays become `List ℚ` with pointwise operations (the claims
  settled here concern bookkeeping, selection and control flow, which are
  exact; the l2 norm option of the residual norm involves real square roots
  and is therefore not instantiated — the modelled modules carry the norm
  order but evaluate the order-1 norm, the library default in `wrapdata`);
* the closed-form forward-model kernels (`fatiando.potential.prism.gz`, …)
  are external collaborators of the specified system and enter the model as
  abstract effect functions stored in each data module;
* `math.sqrt` is likewise an external real-valued function and is threaded
  through the seed operations as an abstract `msqrt : ℚ → ℚ`;
* mutation of Python objects becomes explicit state passing: methods that
  mutate `self` return the updated record, the solver threads the lists of
  seeds and data modules.
-/

namespace FatiandoSpec

/-- A physical-property dictionary (`props` in the source): finitely many
key/value pairs.  Keys are modelled by `ℕ`. -/
abbrev Props := List (ℕ × ℚ)

/-- The key modelling the string `'density'`. -/
def densityKey : ℕ := 0

/-- The key modelling the string `'susceptibility'`. -/
def susceptibilityKey : ℕ := 1

/-- Python `k in props` for a property dictionary. -/
def Props.hasKey (ps : Props) (k : ℕ) : Bool := ps.any (fun p => p.1 == k)

/-- Python `props[k]` (first binding wins; dictionaries have unique keys). -/
def Props.getVal (ps : Props) (k : ℕ) : ℚ := ((ps.lookup k).getD 0)

/-- `for p in self.props: if p in s.props` — the two dictionaries share at
least one key. -/
def sharesPropB (a b : Props) : Bool := a.any (fun p => Props.hasKey b p.1)

/-- Pointwise sum of two numpy-style vectors (`predicted += effect`). -/
def addv (a b : List ℚ) : List ℚ := List.zipWith (· + ·) a b

/-- Pointwise difference (`data - predicted`). -/
def subv (a b : List ℚ) : List ℚ := List.zipWith (· - ·) a b

/-- Order-1 norm of a residual vector (`numpy.linalg.norm(v, 1)`). -/
def l1norm (v : List ℚ) : ℚ := (v.map (fun x => |x|)).sum

/-- First index of the minimum of a list (`numpy.argmin`): ties are broken
towards the earliest occurrence. -/
def argminIdx : List ℚ → ℕ
  | [] => 0
  | [_] => 0
  | x :: y :: xs =>
      let j := argminIdx (y :: xs)
      if x ≤ (y :: xs).getD j 0 then 0 else j + 1

theorem argminIdx_lt_length (l : List ℚ) (h : l ≠ []) : argminIdx l < l.length := by
  induction l with
  | nil => simp at h
  | cons x xs ih =>
      cases xs with
      | nil => simp [argminIdx]
      | cons y ys =>
          simp only [argminIdx]
          split
          · simp
          · have := ih (by simp)
            simpa [Nat.succ_lt_succ_iff] using this

theorem argminIdx_min (l : List ℚ) (j : ℕ) (hj : j < l.length) :
    l.getD (argminIdx l) 0 ≤ l.getD j 0 := by
  induction l generalizing j with
  | nil => simp at hj
  | cons x xs ih =>
      cases xs with
      | nil =>
          have : j = 0 := by simpa using Nat.lt_one_iff.mp (by simpa using hj)
          subst this
          simp [argminIdx]
      | cons y ys =>
          simp only [argminIdx]
          split
          next h =>
            cases j with
            | zero => simp
            | succ j' =>
                have hj' : j' < (y :: ys).length := by simpa using hj
                have htl := ih j' hj'
                calc ((x :: y :: ys).getD 0 0) = x := rfl
                  _ ≤ (y :: ys).getD (argminIdx (y :: ys)) 0 := h
                  _ ≤ (y :: ys).getD j' 0 := htl
                  _ = (x :: y :: ys).getD (j' + 1) 0 := rfl
          next h =>
            cases j with
            | zero =>
                push_neg at h
                simpa using le_of_lt h
            | succ j' =>
                have hj' : j' < (y :: ys).length := by simpa using hj
                simpa using ih j' hj'

/-- The model-space mesh interface consumed by the harvester
(`fatiando.mesher.ddd.PrismMesh` is an external collaborator; the harvester
reads its `shape`, `size`, `dims`, per-cell presence (`mesh[i] is not None`)
and per-cell lower bounds `x1`, `y1`, `z1`). -/
structure Mesh where
  nz : ℕ
  ny : ℕ
  nx : ℕ
  dx : ℚ
  dy : ℚ
  dz : ℚ
  present : ℕ → Bool
  cx1 : ℕ → ℚ
  cy1 : ℕ → ℚ
  cz1 : ℕ → ℚ

/-- `mesh.size`: number of cells. -/
def Mesh.size (m : Mesh) : ℕ := m.nz * m.ny * m.nx

/-- `SeedPrism._find_neighbors(n)` (the default `full=False` path, the only
one the harvester exercises): the face-sharing neighbours of cell `n`,
followed by the filter dropping absent (`None`) cells.  Note the guard for
the neighbour above is `n - nx*ny > 0` in the source (not `>= 0`), so a
neighbour with linear index 0 is never produced. -/
def findNeighbors (m : Mesh) (n : ℕ) : List ℕ :=
  (([if n > m.nx * m.ny then some (n - m.nx * m.ny) else none,
     if n + m.nx * m.ny < m.size then some (n + m.nx * m.ny) else none,
     if n % m.nx < m.nx - 1 then some (n + 1) else none,
     if n % m.nx ≠ 0 then some (n - 1) else none,
     if n % (m.nx * m.ny) < m.nx * (m.ny - 1) then some (n + m.nx) else none,
     if n % (m.nx * m.ny) ≥ m.nx then some (n - m.nx) else none].filterMap id).filter
    (fun i => m.present i))

theorem findNeighbors_lt (m : Mesh) (n : ℕ) (hn : n < m.size) :
    ∀ k ∈ findNeighbors m n, k < m.size := by
  intro k hk
  have hsz : 0 < m.size := by omega
  simp only [findNeighbors, List.mem_filter, List.mem_filterMap, List.mem_cons,
    List.not_mem_nil, or_false, id] at hk
  obtain ⟨⟨o, ho, hok⟩, -⟩ := hk
  have hnx : 0 < m.nx := by
    by_contra h0
    have hx : m.nx = 0 := by omega
    simp [Mesh.size, hx] at hsz
  have hny : 0 < m.ny := by
    by_contra h0
    have hy : m.ny = 0 := by omega
    simp [Mesh.size, hy] at hsz
  have hsize : m.size = m.nz * (m.nx * m.ny) := by
    simp only [Mesh.size]; ring
  rcases ho with h | h | h | h | h | h <;> subst h <;>
    simp only [Option.ite_none_right_eq_some, Option.some.injEq] at hok
  · -- above
    obtain ⟨-, rfl⟩ := hok
    omega
  · -- bellow
    obtain ⟨hlt, rfl⟩ := hok
    omega
  · -- front: from n % nx < nx - 1 deduce n + 1 ≠ size
    obtain ⟨hlt, rfl⟩ := hok
    rcases Nat.lt_or_ge (n + 1) m.size with hfin | hge
    · exact hfin
    · exfalso
      have hn1 : n + 1 = m.size := le_antisymm hn hge
      have hmodn : n % m.nx < m.nx := Nat.mod_lt n hnx
      have hnx2 : 2 ≤ m.nx := by omega
      have hsucc : (n + 1) % m.nx = n % m.nx + 1 := by
        rw [Nat.add_mod, Nat.mod_eq_of_lt (by omega : (1 : ℕ) < m.nx),
          Nat.mod_eq_of_lt (by omega)]
      have hzero : m.size % m.nx = 0 := by
        have hs : m.size = m.nz * m.ny * m.nx := rfl
        rw [hs]
        exact Nat.mul_mod_left _ _
      rw [hn1, hzero] at hsucc
      omega
  · -- back
    obtain ⟨-, rfl⟩ := hok
    omega
  · -- left: n % (nx*ny) < nx*(ny-1) gives room for one more row in the layer
    obtain ⟨hlt, rfl⟩ := hok
    obtain ⟨A, hAdef⟩ : ∃ A, A = m.nx * m.ny := ⟨_, rfl⟩
    rw [← hAdef] at hlt
    have hsizeA : m.size = m.nz * A := by rw [hsize, hAdef]
    have hApos : 0 < A := hAdef ▸ Nat.mul_pos hnx hny
    have hrA : n % A + m.nx < A := by
      obtain ⟨k, hk⟩ : ∃ k, m.ny = k + 1 := ⟨m.ny - 1, by omega⟩
      rw [hk] at hAdef
      have hxx : m.nx * ((k + 1) - 1) = m.nx * k := by norm_num
      rw [hk, hxx] at hlt
      have hexp : m.nx * (k + 1) = m.nx * k + m.nx := by ring
      omega
    have hq : n / A < m.nz := by
      rw [Nat.div_lt_iff_lt_mul hApos, ← hsizeA]
      exact hn
    have hdecomp := Nat.div_add_mod n A
    have h2 : A * (n / A) + A = A * (n / A + 1) := by ring
    have h3 : A * (n / A + 1) ≤ A * m.nz := Nat.mul_le_mul_left _ (by omega)
    have h4 : A * m.nz = m.size := by rw [hsizeA]; ring
    omega
  · -- right
    obtain ⟨-, rfl⟩ := hok
    omega

theorem nodup_filterMap_id_of_pairwise (l : List (Option ℕ))
    (h : l.Pairwise (fun a b => ∀ x, a = some x → b ≠ some x)) :
    (l.filterMap id).Nodup := by
  induction l with
  | nil => simp
  | cons o l ih =>
      rcases h with - | ⟨hhead, htail⟩
      cases o with
      | none => simpa using ih htail
      | some a =>
          have hstep : List.filterMap id (some a :: l) = a :: List.filterMap id l := by
            simp
          rw [hstep]
          refine List.nodup_cons.mpr ⟨?_, ih htail⟩
          intro hmem
          rcases List.mem_filterMap.mp hmem with ⟨b, hb, hba⟩
          exact hhead b hb a rfl (by simpa [id] using hba)

theorem findNeighbors_nodup (m : Mesh) (n : ℕ) (hn : n < m.size) :
    (findNeighbors m n).Nodup := by
  have hsz : 0 < m.size := by omega
  have hnx : 0 < m.nx := by
    by_contra h0
    have hx : m.nx = 0 := by omega
    simp [Mesh.size, hx] at hsz
  have hny : 0 < m.ny := by
    by_contra h0
    have hy : m.ny = 0 := by omega
    simp [Mesh.size, hy] at hsz
  have hApos : 0 < m.nx * m.ny := Nat.mul_pos hnx hny
  have hml : n % (m.nx * m.ny) ≤ n := Nat.mod_le n _
  have hmlA : n % (m.nx * m.ny) < m.nx * m.ny := Nat.mod_lt n hApos
  obtain ⟨A, hAdef⟩ : ∃ A, A = m.nx * m.ny := ⟨_, rfl⟩
  have hApos' : 0 < A := hAdef ▸ hApos
  have hmlA' : n % A < A := Nat.mod_lt n hApos'
  have hml' : n % A ≤ n := Nat.mod_le n A
  unfold findNeighbors
  rw [← hAdef]
  refine List.Nodup.filter _ (nodup_filterMap_id_of_pairwise _ ?_)
  refine List.Pairwise.cons ?_ (List.Pairwise.cons ?_ (List.Pairwise.cons ?_
    (List.Pairwise.cons ?_ (List.Pairwise.cons ?_
    (List.Pairwise.cons (by simp) List.Pairwise.nil)))))
  · -- above versus each later entry
    intro o ho x hx hy
    rw [Option.ite_none_right_eq_some, Option.some.injEq] at hx
    obtain ⟨hc1, rfl⟩ := hx
    simp only [List.mem_cons, List.not_mem_nil, or_false] at ho
    rcases ho with rfl | rfl | rfl | rfl | rfl <;>
      rw [Option.ite_none_right_eq_some, Option.some.injEq] at hy <;>
      obtain ⟨hcj, heq⟩ := hy
    · omega
    · omega
    · -- back: forces nx*ny = 1, contradicting the back guard
      have hA1 : A = 1 := by omega
      have hmul : m.nx ≤ m.nx * m.ny := Nat.le_mul_of_pos_right m.nx hny
      have hx1 : m.nx = 1 := by omega
      rw [hx1] at hcj
      omega
    · omega
    · -- right: forces A = nx, contradicting n % A ≥ nx and n % A < A
      omega
  · -- bellow versus each later entry
    intro o ho x hx hy
    rw [Option.ite_none_right_eq_some, Option.some.injEq] at hx
    obtain ⟨hc2, rfl⟩ := hx
    simp only [List.mem_cons, List.not_mem_nil, or_false] at ho
    rcases ho with rfl | rfl | rfl | rfl <;>
      rw [Option.ite_none_right_eq_some, Option.some.injEq] at hy <;>
      obtain ⟨hcj, heq⟩ := hy
    · -- front: forces A = 1, contradicting the front guard
      have hA1 : A = 1 := by omega
      have hmul : m.nx ≤ m.nx * m.ny := Nat.le_mul_of_pos_right m.nx hny
      have hx1 : m.nx = 1 := by omega
      rw [hx1] at hcj
      omega
    · omega
    · -- left: forces A = nx hence ny = 1, contradicting the left guard
      have hAx : A = m.nx := by omega
      have hy1 : m.ny = 1 := by
        have h1 : m.nx * m.ny = m.nx * 1 := by
          rw [← hAdef, hAx, Nat.mul_one]
        exact Nat.eq_of_mul_eq_mul_left hnx h1
      rw [hy1] at hcj
      omega
    · omega
  · -- front versus each later entry
    intro o ho x hx hy
    rw [Option.ite_none_right_eq_some, Option.some.injEq] at hx
    obtain ⟨hc3, rfl⟩ := hx
    simp only [List.mem_cons, List.not_mem_nil, or_false] at ho
    rcases ho with rfl | rfl | rfl <;>
      rw [Option.ite_none_right_eq_some, Option.some.injEq] at hy <;>
      obtain ⟨hcj, heq⟩ := hy
    · omega
    · -- left: forces nx = 1, contradicting the front guard
      have hx1 : m.nx = 1 := by omega
      rw [hx1] at hc3
      omega
    · omega
  · -- back versus each later entry
    intro o ho x hx hy
    rw [Option.ite_none_right_eq_some, Option.some.injEq] at hx
    obtain ⟨hc4, rfl⟩ := hx
    simp only [List.mem_cons, List.not_mem_nil, or_false] at ho
    rcases ho with rfl | rfl <;>
      rw [Option.ite_none_right_eq_some, Option.some.injEq] at hy <;>
      obtain ⟨hcj, heq⟩ := hy
    · omega
    · -- right: either nx = 1 (kills the back guard) or n ≤ 1 < nx (kills right)
      by_cases hx1 : m.nx = 1
      · rw [hx1] at hc4
        omega
      · omega
  · -- left versus right
    intro o ho x hx hy
    rw [Option.ite_none_right_eq_some, Option.some.injEq] at hx
    obtain ⟨hc5, rfl⟩ := hx
    simp only [List.mem_cons, List.not_mem_nil, or_false] at ho
    subst ho
    rw [Option.ite_none_right_eq_some, Option.some.injEq] at hy
    obtain ⟨hcj, heq⟩ := hy
    omega

/-- A prism data module (`DMPrism` and its per-component subclasses
`DMPrismGz`, `DMPrismGxx`, …).  The subclass-specific `_effect_of_prism`
calls the external forward kernel; it is carried as the abstract field
`effectFn`.  `effect` is the incremental-effect cache (`self.effect`),
modelled as a partial map on cell indices. -/
structure DM where
  data : List ℚ
  predicted : List ℚ
  xp : List ℚ
  yp : List ℚ
  zp : List ℚ
  weight : ℚ
  norm : ℕ
  propType : ℕ
  effect : ℕ → Option (List ℚ)
  effectFn : ℕ → Props → List ℚ

/-- Construction failures of `DMPrism.__init__`. -/
inductive DMError
  | invalidNorm
  | lengthMismatch
deriving DecidableEq, Repr

/-- `DMPrism.__init__` followed by the subclass setting of `prop_type`.
The two `raise ValueError` guards are translated literally: the second is
the Python chained comparison `len(xp) != len(yp) != len(zp) != len(data)`,
which is the conjunction of the three adjacent inequalities. -/
def DM.make (data xp yp zp : List ℚ) (norm : ℕ) (propType : ℕ)
    (effectFn : ℕ → Props → List ℚ) : Except DMError DM :=
  if norm ≠ 1 ∧ norm ≠ 2 then .error .invalidNorm
  else if xp.length ≠ yp.length ∧ yp.length ≠ zp.length ∧ zp.length ≠ data.length then
    .error .lengthMismatch
  else .ok
    { data := data
      predicted := data.map (fun _ => 0)
      xp := xp, yp := yp, zp := zp
      weight := 1 / l1norm data
      norm := norm
      propType := propType
      effect := fun _ => none
      effectFn := effectFn }

/-- `DMPrism.misfit(predicted)`: weighted norm of the residual. -/
def DM.misfit (dm : DM) (predicted : List ℚ) : ℚ :=
  dm.weight * l1norm (subv dm.data predicted)

/-- `DMPrism.update(element)`: permanently absorb the element's effect if the
module's tracked property is present; evict the cache entry. -/
def DM.update (dm : DM) (index : ℕ) (props : Props) : DM :=
  if Props.hasKey props dm.propType then
    let eff := (dm.effect index).getD (dm.effectFn index props)
    { dm with
      predicted := addv dm.predicted eff
      effect := fun j => if j = index then none else dm.effect j }
  else dm

/-- `DMPrism.testdrive(element)`: the what-if misfit.  Computes and caches
the element's effect (the cache mutation is returned as the second
component) but leaves `predicted` untouched. -/
def DM.testdrive (dm : DM) (index : ℕ) (props : Props) : ℚ × DM :=
  if Props.hasKey props dm.propType then
    let eff := (dm.effect index).getD (dm.effectFn index props)
    (dm.misfit (addv dm.predicted eff),
     { dm with effect := fun j => if j = index then some eff else dm.effect j })
  else (dm.misfit dm.predicted, dm)

/-- Sequential `update` over a list of elements. -/
def DM.updates (dm : DM) (l : List (ℕ × Props)) : DM :=
  l.foldl (fun d e => d.update e.1 e.2) dm

/-- The second-invariant data module `DMPrismI2`.  Its `_effect_of_cells`
combines six external kernel evaluations nonlinearly; it enters the model
as the abstract `effCellsFn`, applied to the accumulated cells together
with their current property dictionaries read off the shared mesh.
`estimate` stores the accumulated cells (the source stores the mesh cell
objects themselves; cell identity is the index, and the properties are
re-read from the mesh, mirroring the aliasing of the Python references). -/
structure DMI2 where
  data : List ℚ
  predicted : List ℚ
  weight : ℚ
  norm : ℕ
  estimate : List ℕ
  effCellsFn : List (ℕ × Props) → List ℚ

/-- The per-cell property state of the shared mesh (`cell.addprop` mutates
it in place; the model threads it explicitly). -/
abbrev MeshProps := ℕ → Props

/-- `cell.addprop(p, value)` of the external mesher: set one key. -/
def setProp (cell : Props) (k : ℕ) (v : ℚ) : Props :=
  (k, v) :: cell.filter (fun q => q.1 ≠ k)

/-- `for p in props: cell.addprop(p, props[p])`. -/
def addProps (cell : Props) (props : Props) : Props :=
  props.foldl (fun c pv => setProp c pv.1 pv.2) cell

/-- `DMPrismI2.misfit` (inherited from `DMPrism`). -/
def DMI2.misfit (dm : DMI2) (predicted : List ℚ) : ℚ :=
  dm.weight * l1norm (subv dm.data predicted)

/-- `DMPrismI2.update(element)`: note that, unlike `DMPrism.update`, the
source performs no `prop_type in props` check — it always writes the
properties onto the mesh cell, appends the cell to `self.estimate` and
recomputes `predicted` from the full accumulated set. -/
def DMI2.update (dm : DMI2) (mesh : MeshProps) (index : ℕ) (props : Props) :
    DMI2 × MeshProps :=
  let mesh' : MeshProps := fun j => if j = index then addProps (mesh index) props else mesh j
  let est' := dm.estimate ++ [index]
  ({ dm with
      estimate := est'
      predicted := dm.effCellsFn (est'.map (fun j => (j, mesh' j))) },
   mesh')

/-- `DMPrismI2.testdrive(element)`: returns the what-if misfit; when the
tracked property (`'density'`) is present it writes the candidate's
properties onto the shared mesh cell (a lasting side effect) but leaves
`predicted` and `estimate` unchanged. -/
def DMI2.testdrive (dm : DMI2) (mesh : MeshProps) (index : ℕ) (props : Props) :
    ℚ × DMI2 × MeshProps :=
  if Props.hasKey props densityKey then
    let mesh' : MeshProps := fun j => if j = index then addProps (mesh index) props else mesh j
    (dm.misfit (dm.effCellsFn ((dm.estimate ++ [index]).map (fun j => (j, mesh' j)))),
     dm, mesh')
  else (dm.misfit dm.predicted, dm, mesh)

/-- A prism seed (`SeedPrism`).  `distance` is the per-neighbour distance
dictionary, `reg` the accumulated regularization, `mu` the compactness
weight already scaled by the cell-size normalization (the constructor does
`self.mu = mu*self.weight`).  `ijk` is the grid decomposition of the seed
index, set for the relative-distance mode. -/
structure Seed where
  kind : ℕ
  index : ℕ
  props : Props
  delta : ℚ
  estimate : List ℕ
  neighbors : List ℕ
  reg : ℚ
  distance : List (ℕ × ℚ)
  mu : ℚ
  reldist : Bool
  ijk : ℕ × ℕ × ℕ

instance : Inhabited Seed :=
  ⟨{ kind := 0, index := 0, props := [], delta := 0, estimate := [], neighbors := [],
     reg := 0, distance := [], mu := 0, reldist := false, ijk := (0, 0, 0) }⟩

/-- The `kind = 'prism'` tag of `SeedPrism`. -/
def prismKind : ℕ := 0

/-- `SeedPrism.__init__` after the point has been resolved to a mesh index
(`self._get_index` is pure geometry over the external mesh coordinates and
none of the settled claims depends on it, so the constructor is embedded
from the resolved index on).  Computes the size normalization `weight`, the
scaled `mu`, and for `reldist` the `i, j, k` decomposition of the index. -/
def mkSeedPrism (mesh : Mesh) (index : ℕ) (props : Props) (mu delta : ℚ)
    (reldist : Bool) : Seed :=
  let weightAbs : ℚ :=
    1 / (((mesh.nx : ℚ) * mesh.dx + (mesh.ny : ℚ) * mesh.dy + (mesh.nz : ℚ) * mesh.dz) / 3)
  let weightRel : ℚ := 1 / (((mesh.nx : ℚ) + (mesh.ny : ℚ) + (mesh.nz : ℚ)) / 3)
  let weight := if reldist then weightRel else weightAbs
  let k := index / (mesh.nx * mesh.ny)
  let j := (index - k * (mesh.nx * mesh.ny)) / mesh.nx
  let i := index - k * (mesh.nx * mesh.ny) - j * mesh.nx
  { kind := prismKind
    index := index
    props := props
    delta := delta
    estimate := [index]
    neighbors := []
    reg := 0
    distance := []
    mu := mu * weight
    reldist := reldist
    ijk := (i, j, k) }

/-- `SeedPrism._get_relative_distances`: distance in grid steps between the
seed's `i, j, k` and the neighbour's. -/
def relativeDistance (msqrt : ℚ → ℚ) (mesh : Mesh) (ijk : ℕ × ℕ × ℕ) (n : ℕ) : ℚ :=
  let knbr := n / (mesh.nx * mesh.ny)
  let jnbr := (n - knbr * (mesh.nx * mesh.ny)) / mesh.nx
  let inbr := n - knbr * (mesh.nx * mesh.ny) - jnbr * mesh.nx
  let dx : ℚ := (ijk.1 : ℚ) - (inbr : ℚ)
  let dy : ℚ := (ijk.2.1 : ℚ) - (jnbr : ℚ)
  let dz : ℚ := (ijk.2.2 : ℚ) - (knbr : ℚ)
  msqrt (dx ^ 2 + dy ^ 2 + dz ^ 2)

/-- `SeedPrism._get_absolute_distances`: Euclidean distance between the
lower corners of the neighbour's and the seed's cells. -/
def absoluteDistance (msqrt : ℚ → ℚ) (mesh : Mesh) (sIndex : ℕ) (n : ℕ) : ℚ :=
  let dx := |mesh.cx1 n - mesh.cx1 sIndex|
  let dy := |mesh.cy1 n - mesh.cy1 sIndex|
  let dz := |mesh.cz1 n - mesh.cz1 sIndex|
  msqrt (dx ^ 2 + dy ^ 2 + dz ^ 2)

/-- `self._get_distances(neighbors)`: add the distances of the given
neighbours to the distance dictionary (dispatching on `reldist`). -/
def Seed.addDistances (msqrt : ℚ → ℚ) (mesh : Mesh) (s : Seed) (ns : List ℕ) : Seed :=
  { s with distance :=
      (ns.map (fun n =>
        (n, if s.reldist then relativeDistance msqrt mesh s.ijk n
            else absoluteDistance msqrt mesh s.index n))) ++ s.distance }

/-- `self.distance[n]`. -/
def Seed.distOf (s : Seed) (n : ℕ) : ℚ := (s.distance.lookup n).getD 0

/-- `SeedPrism._in_estimate(n, seeds)`: `n` is in the estimate of a seed
that shares a physical property with this seed. -/
def inEstimateB (selfProps : Props) (n : ℕ) (seeds : List Seed) : Bool :=
  seeds.any (fun s => sharesPropB selfProps s.props && s.estimate.contains n)

/-- `SeedPrism._is_neighbor(n, seeds)`: `n` is in the neighbour list of a
seed that shares a physical property with this seed. -/
def isNeighborB (selfProps : Props) (n : ℕ) (seeds : List Seed) : Bool :=
  seeds.any (fun s => sharesPropB selfProps s.props && s.neighbors.contains n)

/-- The composed exclusion of `initialize`/`_update_neighbors`:
`_not_neighbors(seeds, _are_free(seeds, candidates))`. -/
def freeCandidates (selfProps : Props) (seeds : List Seed) (cands : List ℕ) : List ℕ :=
  (cands.filter (fun n => !(inEstimateB selfProps n seeds))).filter
    (fun n => !(isNeighborB selfProps n seeds))

/-- `SeedPrism.initialize(seeds)`: extend the neighbour list with the free,
unclaimed face neighbours of the seed cell and record their distances. -/
def Seed.setup (msqrt : ℚ → ℚ) (mesh : Mesh) (seeds : List Seed) (s : Seed) : Seed :=
  let new := freeCandidates s.props seeds (findNeighbors mesh s.index)
  Seed.addDistances msqrt mesh { s with neighbors := s.neighbors ++ new } new

/-- `for i, seed in enumerate(seeds): seed.initialize(seeds)` — each seed is
initialized against the current state of the whole list. -/
def setupAllSeeds (msqrt : ℚ → ℚ) (mesh : Mesh) (seeds : List Seed) : List Seed :=
  (List.range seeds.length).foldl
    (fun ss i => ss.set i (Seed.setup msqrt mesh ss (ss.getD i default))) seeds

/-- `SeedPrism._judge(goals, misfits, goal, misfit)`: indices whose misfit
decreases by at least the relative threshold `delta`, then the first index
attaining the least goal among them.  Returns `(best, goals[best],
misfits[best])`. -/
def judge (delta : ℚ) (goals misfits : List ℚ) (misfit : ℚ) : Option (ℕ × ℚ × ℚ) :=
  let decreased := (List.range misfits.length).filter
    (fun i => decide (misfits.getD i 0 < misfit) &&
      decide (|misfits.getD i 0 - misfit| / misfit ≥ delta))
  if decreased.isEmpty then none
  else
    let best := decreased.getD (argminIdx (decreased.map (fun i => goals.getD i 0))) 0
    some (best, goals.getD best 0, misfits.getD best 0)

/-- One `dm.testdrive` pass of a candidate over all data modules,
accumulating the misfit sum (`numpy.sum(dm.testdrive(...) for dm in dms)`)
and threading the cache mutations. -/
def testdriveSum (dms : List DM) (n : ℕ) (props : Props) : ℚ × List DM :=
  dms.foldl
    (fun acc dm =>
      let r := dm.testdrive n props
      (acc.1 + r.1, acc.2 ++ [r.2]))
    (0, [])

/-- The hypothetical misfits of all frontier candidates, in frontier order,
threading the data modules through the testdrives. -/
def testdriveAll (dms : List DM) (ns : List ℕ) (props : Props) : List ℚ × List DM :=
  ns.foldl
    (fun acc n =>
      let r := testdriveSum acc.2 n props
      (acc.1 ++ [r.1], r.2))
    ([], dms)

/-- The state change of an accepted accretion of cell `n` by seed `i`
(the tail of `SeedPrism.grow` plus `_update_neighbors`): append `n` to the
estimate, add `mu*distance[n]` to the accumulated regularization, then
replace `n` in the neighbour list by the free unclaimed neighbours of `n`
computed against the updated seed list, and update the distance
dictionary. -/
def accrete (msqrt : ℚ → ℚ) (mesh : Mesh) (seeds : List Seed) (i : ℕ) (n : ℕ) :
    List Seed :=
  let s := seeds.getD i default
  let s1 := { s with
    estimate := s.estimate ++ [n]
    reg := s.reg + s.mu * s.distOf n }
  let seedsCur := seeds.set i s1
  let new := freeCandidates s1.props seedsCur (findNeighbors mesh n)
  let s2 := Seed.addDistances msqrt mesh
    { s1 with
      neighbors := s1.neighbors.erase n ++ new
      distance := s1.distance.filter (fun p => p.1 ≠ n) } new
  seeds.set i s2

/-- `SeedPrism.grow(dms, seeds, goal, misfit)` for the seed at position `i`
of the seed list (`self` is `seeds[i]`; the source mutates it in place).
Returns the accepted `(cell, props, goal, misfit)` if a candidate passes
`_judge`, together with the updated seed list and data modules. -/
def growSeed (msqrt : ℚ → ℚ) (mesh : Mesh) (dms : List DM) (seeds : List Seed)
    (i : ℕ) (misfit : ℚ) : Option (ℕ × Props × ℚ × ℚ) × List Seed × List DM :=
  let s := seeds.getD i default
  let r := testdriveAll dms s.neighbors s.props
  let misfits := r.1
  let dms' := r.2
  let regularizer := (seeds.map Seed.reg).sum
  let goals := (s.neighbors.zip misfits).map
    (fun p => p.2 + regularizer + s.mu * s.distOf p.1)
  match judge s.delta goals misfits misfit with
  | none => (none, seeds, dms')
  | some (best, goal', misfit') =>
      let n := s.neighbors.getD best 0
      (some (n, s.props, goal', misfit'), accrete msqrt mesh seeds i n, dms')

/-- The mutable state of `_harvest_solver`: the data modules, the seeds and
the goal/misfit trajectories. -/
structure SolverState where
  dms : List DM
  seeds : List Seed
  goals : List ℚ
  misfits : List ℚ

/-- The body of the solver's inner loop for one seed: try to grow it with
the current `goals[-1]`/`misfits[-1]`; on acceptance append to both
trajectories and absorb the accepted element into every data module.
Returns the flag contribution to `grew`. -/
def seedStep (msqrt : ℚ → ℚ) (mesh : Mesh) (st : SolverState) (i : ℕ) :
    SolverState × Bool :=
  let r := growSeed msqrt mesh st.dms st.seeds i (st.misfits.getLastD 0)
  match r.1 with
  | none => ({ st with seeds := r.2.1, dms := r.2.2 }, false)
  | some (n, props, goal', misfit') =>
      ({ dms := r.2.2.map (fun dm => dm.update n props)
         seeds := r.2.1
         goals := st.goals ++ [goal']
         misfits := st.misfits ++ [misfit'] }, true)

/-- One full round of `_harvest_solver`: a pass over all seeds in order;
the round `grew` if at least one seed grew. -/
def roundPass (msqrt : ℚ → ℚ) (mesh : Mesh) (st : SolverState) : SolverState × Bool :=
  (List.range st.seeds.length).foldl
    (fun acc i =>
      let r := seedStep msqrt mesh acc.1 i
      (r.1, acc.2 || r.2))
    (st, false)

/-- The `while True` loop of `_harvest_solver`, with explicit fuel: repeat
rounds while they grow; stop at the first round with no growth.  The second
component records proper convergence (`true`) versus fuel exhaustion
(`false`); the termination theorem shows the fuel used by `harvestSolver`
always suffices. -/
def solverFuel (msqrt : ℚ → ℚ) (mesh : Mesh) : ℕ → SolverState → SolverState × Bool
  | 0, st => (st, false)
  | fuel + 1, st =>
      let r := roundPass msqrt mesh st
      if r.2 then solverFuel msqrt mesh fuel r.1 else (r.1, true)

/-- `_harvest_solver`'s loop run with fuel `#seeds * mesh.size + 1`, which
the termination theorem shows is never exhausted: growth is monotonic and
each seed's estimate is a duplicate-free subset of the mesh. -/
def harvestSolver (msqrt : ℚ → ℚ) (mesh : Mesh) (st : SolverState) : SolverState × Bool :=
  solverFuel msqrt mesh (st.seeds.length * mesh.size + 1) st

/-- Extend one property's assignment list in the accumulating estimate
(`estimate[prop] = values` or `estimate[prop].extend(values)`). -/
def extendEntry (est : List (ℕ × List (ℕ × ℚ))) (k : ℕ) (vs : List (ℕ × ℚ)) :
    List (ℕ × List (ℕ × ℚ)) :=
  if (est.lookup k).isSome then
    est.map (fun e => if e.1 = k then (e.1, e.2 ++ vs) else e)
  else est ++ [(k, vs)]

/-- `_cat_estimate(seeds)`: concatenate all seeds' estimates into the final
per-property sparse assignment (for the `'prism'` kind). -/
def catEstimate (seeds : List Seed) : List (ℕ × List (ℕ × ℚ)) :=
  if (seeds.getD 0 default).kind = prismKind then
    seeds.foldl
      (fun est seed =>
        seed.props.foldl
          (fun est2 pv => extendEntry est2 pv.1 (seed.estimate.map (fun i => (i, pv.2))))
          est)
      []
  else []

/-- Failure modes of the `harvest` entry point. -/
inductive HarvestError
  | notImplemented
  | heterogeneousKinds
  | emptySeeds
deriving DecidableEq, Repr

/-- The return value of `harvest`: `[estimate, goals, misfits]`, together
with the final solver state (the estimate is read off the final seeds). -/
structure HarvestResult where
  estimate : List (ℕ × List (ℕ × ℚ))
  goals : List ℚ
  misfits : List ℚ
  finalState : SolverState

/-- The pre-round part of `harvest` (after the `iterate` gate): the
same-kind check over the seeds (`seeds[0]` raises on an empty list), seed
initialization in list order, the per-module weight division by the number
of modules, absorption of every seed's own cell into every data module, and
the initial goal = sum of the modules' misfits. -/
def harvestSetup (msqrt : ℚ → ℚ) (mesh : Mesh) (dms : List DM) (seeds : List Seed) :
    Except HarvestError SolverState :=
  match seeds with
  | [] => .error .emptySeeds
  | s0 :: _ =>
      if !(seeds.all (fun s => s.kind == s0.kind)) then .error .heterogeneousKinds
      else
        let seeds' := setupAllSeeds msqrt mesh seeds
        let dms1 := dms.map (fun dm => { dm with weight := dm.weight / (dms.length : ℚ) })
        let dms2 := dms1.map (fun dm => seeds'.foldl (fun d s => d.update s.index s.props) dm)
        let g0 := (dms2.map (fun dm => dm.misfit dm.predicted)).sum
        .ok { dms := dms2, seeds := seeds', goals := [g0], misfits := [g0] }

/-- `harvest(dms, seeds, iterate)`: the inversion entry point.  The
`iterate` gate is the first executable statement with an effect: streaming
mode raises `NotImplementedError` before the kind check, before any seed
initialization and before any data-module update. -/
def harvestFull (msqrt : ℚ → ℚ) (mesh : Mesh) (dms : List DM) (seeds : List Seed)
    (iterate : Bool) : Except HarvestError HarvestResult :=
  if iterate then .error .notImplemented
  else
    match harvestSetup msqrt mesh dms seeds with
    | .error e => .error e
    | .ok st0 =>
        let r := harvestSolver msqrt mesh st0
        .ok { estimate := catEstimate r.1.seeds
              goals := r.1.goals
              misfits := r.1.misfits
              finalState := r.1 }

/-!
The matrix-solver formulation (`fatiando/inversion/pgrav3d.py`): the parts
of `grow` exercised by the seeds-too-close behaviour — `_add_neighbors`
(full 26-cell neighbourhood, with the global already-claimed and
already-marked exclusions) and the initialization conflict-resolution pass
of `grow` (its only raise site for "Seeds %d and %d are too close.").

The conflict-resolution loop in the source iterates over
`seed['neighbors']` while calling `seed['neighbors'].remove(neighbor)` on
it; CPython list iteration is positional, so removing the current element
shifts the rest left and the element directly after a removed one is never
visited.  `resolveGo` translates that semantics literally via the explicit
position `idx`.
-/

namespace Pgrav

structure PSeed where
  param : ℤ
  density : ℚ
  neighbors : List ℤ
deriving Repr

instance : Inhabited PSeed := ⟨{ param := 0, density := 0, neighbors := [] }⟩

inductive PgravError
  | seedsTooClose (i j : ℕ)
deriving DecidableEq, Repr

def estGet (est : List ℚ) (i : ℤ) : ℚ :=
  if i < 0 then est.getD (est.length - (-i).toNat) 0 else est.getD i.toNat 0

def tryAdd (others : List (List ℤ)) (est : List ℚ) (ns : List ℤ) (cond : Bool)
    (cand : ℤ) : List ℤ :=
  if cond && others.all (fun l => !(l.contains cand)) && !(ns.contains cand) &&
      (estGet est cand == 0) then
    ns ++ [cand]
  else ns

def addNeighbors26 (nz ny nx : ℕ) (param : ℤ) (ns0 : List ℤ)
    (others : List (List ℤ)) (est : List ℚ) : List ℤ :=
  let size : ℤ := ((nz * ny * nx : ℕ) : ℤ)
  let nxZ : ℤ := (nx : ℤ)
  let A : ℤ := ((nx * ny : ℕ) : ℤ)
  let condAbove := decide (param - A > 0)
  let condBellow := decide (param + A < size)
  let condFront := decide (param % nxZ < nxZ - 1)
  let condBack := decide (param % nxZ ≠ 0)
  let condLeft := decide (param % A < nxZ * ((ny : ℤ) - 1))
  let condRight := decide (param % A ≥ nxZ)
  let ns := tryAdd others est ns0 condAbove (param - A)
  let ns := tryAdd others est ns condBellow (param + A)
  let ns := tryAdd others est ns condFront (param + 1)
  let ns := tryAdd others est ns condBack (param - 1)
  let ns := tryAdd others est ns condLeft (param + nxZ)
  let ns := tryAdd others est ns condRight (param - nxZ)
  let ns := tryAdd others est ns (condFront && condLeft) (param + nxZ + 1)
  let ns := tryAdd others est ns (condFront && condRight) (param - nxZ + 1)
  let ns := tryAdd others est ns (condBack && condLeft) (param + nxZ - 1)
  let ns := tryAdd others est ns (condBack && condRight) (param - nxZ - 1)
  let ns := tryAdd others est ns (condAbove && condLeft) (param - A + nxZ)
  let ns := tryAdd others est ns (condAbove && condRight) (param - A - nxZ)
  let ns := tryAdd others est ns (condAbove && condFront) (param - A + 1)
  let ns := tryAdd others est ns (condAbove && condBack) (param - A - 1)
  let ns := tryAdd others est ns (condAbove && condFront && condLeft) (param - A + nxZ + 1)
  let ns := tryAdd others est ns (condAbove && condFront && condRight) (param - A - nxZ + 1)
  let ns := tryAdd others est ns (condAbove && condBack && condLeft) (param - A + nxZ - 1)
  let ns := tryAdd others est ns (condAbove && condBack && condRight) (param - A - nxZ - 1)
  let ns := tryAdd others est ns (condBellow && condLeft) (param + A + nxZ)
  let ns := tryAdd others est ns (condBellow && condRight) (param + A - nxZ)
  let ns := tryAdd others est ns (condBellow && condFront) (param + A + 1)
  let ns := tryAdd others est ns (condBellow && condBack) (param + A - 1)
  let ns := tryAdd others est ns (condBellow && condFront && condLeft) (param + A + nxZ + 1)
  let ns := tryAdd others est ns (condBellow && condFront && condRight) (param + A - nxZ + 1)
  let ns := tryAdd others est ns (condBellow && condBack && condLeft) (param + A + nxZ - 1)
  let ns := tryAdd others est ns (condBellow && condBack && condRight) (param + A - nxZ - 1)
  ns

def conflictAt (seeds : List PSeed) (i : ℕ) (nbr : ℤ) : Option ℕ :=
  ((List.range seeds.length).filter (fun j => j ≠ i)).find?
    (fun j => (seeds.getD j default).neighbors.contains nbr)

def resolveGo (i : ℕ) : ℕ → ℕ → List PSeed → Except PgravError (List PSeed)
  | 0, _, seeds => .ok seeds
  | fuel + 1, idx, seeds =>
      let own := (seeds.getD i default).neighbors
      if idx < own.length then
        let nbr := own.getD idx 0
        match conflictAt seeds i nbr with
        | none => resolveGo i fuel (idx + 1) seeds
        | some j =>
            if (seeds.getD i default).density == (seeds.getD j default).density then
              resolveGo i fuel (idx + 1)
                (seeds.set i { seeds.getD i default with neighbors := own.erase nbr })
            else .error (.seedsTooClose i j)
      else .ok seeds

def resolveSeedPass (i : ℕ) (seeds : List PSeed) : Except PgravError (List PSeed) :=
  resolveGo i ((seeds.getD i default).neighbors.length + 1) 0 seeds

def resolveConflicts (seeds : List PSeed) : Except PgravError (List PSeed) :=
  (List.range seeds.length).foldlM (fun ss i => resolveSeedPass i ss) seeds

def growInit (nz ny nx : ℕ) (seedSpecs : List (ℕ × ℚ)) :
    Except PgravError (List PSeed) :=
  let size := nz * ny * nx
  let est := seedSpecs.foldl (fun e s => e.set s.1 s.2) (List.replicate size 0)
  let seeds := seedSpecs.map
    (fun s => ({ param := (s.1 : ℤ), density := s.2, neighbors := [] } : PSeed))
  let seeds := seeds.map
    (fun s => { s with neighbors := addNeighbors26 nz ny nx s.param [] [] est })
  resolveConflicts seeds

end Pgrav

/-!
Concrete instances used by the counterexamples and witnesses below.
`meshRow2` is the 1×1×2 mesh (`shape = (nz, ny, nx) = (1, 1, 2)`), all cells
present.  `seedRowA` is a density seed on cell 0, `seedRowB` a
susceptibility-only seed on cell 1: their property sets are disjoint.
`dmRow` is a prism data module over one observation with value 2 whose
external kernel assigns every cell the unit effect, so absorbing both cells
fits the datum exactly.  `math.sqrt` is instantiated by the identity (the
run only evaluates it at 1).
-/

def meshRow2 : Mesh :=
  { nz := 1, ny := 1, nx := 2, dx := 1, dy := 1, dz := 1,
    present := fun _ => true, cx1 := fun _ => 0, cy1 := fun _ => 0, cz1 := fun _ => 0 }

def seedRowA : Seed := mkSeedPrism meshRow2 0 [(densityKey, 1)] 0 (1 / 10000) true

def seedRowB : Seed := mkSeedPrism meshRow2 1 [(susceptibilityKey, 1)] 0 (1 / 10000) true

def dmRow : DM :=
  { data := [2], predicted := [0], xp := [0], yp := [0], zp := [0],
    weight := 1 / l1norm [2], norm := 1, propType := densityKey,
    effect := fun _ => none, effectFn := fun _ _ => [1] }

/-- The complete disjoint-property harvest run of the two-cell scenario. -/
def runRow : Except HarvestError HarvestResult :=
  harvestFull id meshRow2 [dmRow] [seedRowA, seedRowB] false

/-- The solver state of that scenario right after `harvest`'s setup phase
(seeds initialized, module weights divided, seed cells absorbed). -/
def runRowSetup : SolverState :=
  (harvestSetup id meshRow2 [dmRow] [seedRowA, seedRowB]).toOption.getD
    { dms := [], seeds := [], goals := [], misfits := [] }

/-- The 2×1×1 mesh (`shape = (2, 1, 1)`): two cells stacked vertically,
cell 0 directly above cell 1. -/
def meshTwoLayers : Mesh :=
  { nz := 2, ny := 1, nx := 1, dx := 1, dy := 1, dz := 1,
    present := fun _ => true, cx1 := fun _ => 0, cy1 := fun _ => 0, cz1 := fun _ => 0 }

def seedTwoLayers : Seed := mkSeedPrism meshTwoLayers 1 [(densityKey, 1)] 0 (1 / 10000) true

/-- C9.  Streaming mode fails explicitly: for every list of data modules
and seeds (and any mesh and square root), calling `harvest` with
`iterate = True` raises `NotImplementedError` as its first effect — before
the seed-kind check, before any seed initialization and before any
data-module update — and never returns a result. -/
theorem claim_C9_iterate_raises (msqrt : ℚ → ℚ) (mesh : Mesh) (dms : List DM)
    (seeds : List Seed) :
    harvestFull msqrt mesh dms seeds true = .error .notImplemented := rfl

/-- C2 (code bug), evaluation at the failing input: `DMPrism.__init__`'s
guard is the Python chained comparison
`len(xp) != len(yp) != len(zp) != len(data)`, which only tests adjacent
pairs.  With lengths `(xp, yp, zp, data) = (1, 2, 2, 2)` the arrays do not
all have equal length, yet construction succeeds instead of raising. -/
theorem claim_C2_length_check_bypassed :
    (DM.make [0, 0] [0] [0, 0] [0, 0] 1 densityKey (fun _ _ => [])).isOk = true
    ∧ ([0] : List ℚ).length ≠ ([0, 0] : List ℚ).length := by
  exact ⟨rfl, by decide⟩

/-- C4 (code bug), evaluation at the failing input: on the 2×1×1 mesh the
seed cell 1 (linear index `nx*ny = 1`) has exactly one face neighbour, the
present cell 0 directly above; but `_find_neighbors` guards the neighbour
above with `n - nx*ny > 0` rather than `>= 0`, so the frontier after
`initialize` (with no other seed) is empty instead of containing 0. -/
theorem claim_C4_above_neighbor_zero_missing :
    meshTwoLayers.present 0 = true
    ∧ meshTwoLayers.nx * meshTwoLayers.ny = 1
    ∧ seedTwoLayers.index = 1
    ∧ findNeighbors meshTwoLayers 1 = []
    ∧ (Seed.setup id meshTwoLayers [seedTwoLayers] seedTwoLayers).neighbors = [] := by
  refine ⟨rfl, rfl, rfl, rfl, rfl⟩

/-- C6, counterexample: `DMPrismI2.update`, unlike `DMPrism.update`, does
not check `self.prop_type in props`; updating an invariant module with a
susceptibility-only element (no `'density'`) appends the cell to the
module's estimate, so the state is not left unchanged. -/
theorem claim_C6_counterexample :
    Props.hasKey [(susceptibilityKey, 3)] densityKey = false
    ∧ (DMI2.update
        { data := [0], predicted := [0], weight := 1, norm := 1, estimate := [],
          effCellsFn := fun _ => [0] }
        (fun _ => []) 5 [(susceptibilityKey, 3)]).1.estimate = [5] := by
  exact ⟨by decide, rfl⟩

/-- C6, amended: `update` with the tracked property absent is a no-op for
the non-invariant prism data modules (`DMPrism` and subclasses): predicted
vector and effect cache — the whole module — are unchanged.  For the
second-invariant kind `DMPrismI2`, `update` is never a no-op: it appends
the cell to the module's accumulated estimate unconditionally. -/
theorem claim_C6_amended :
    (∀ (dm : DM) (index : ℕ) (props : Props),
      Props.hasKey props dm.propType = false → dm.update index props = dm)
    ∧ (∀ (dm : DMI2) (mesh : MeshProps) (index : ℕ) (props : Props),
      ((dm.update mesh index props).1).estimate = dm.estimate ++ [index]) := by
  constructor
  · intro dm index props h
    simp [DM.update, h]
  · intro dm mesh index props
    rfl

/-- Witness for C6: the no-op half applied to the concrete module `dmRow`
and a susceptibility-only element. -/
theorem claim_C6_witness :
    Props.hasKey [(susceptibilityKey, 3)] dmRow.propType = false
    ∧ dmRow.update 1 [(susceptibilityKey, 3)] = dmRow :=
  ⟨by decide, claim_C6_amended.1 dmRow 1 [(susceptibilityKey, 3)] (by decide)⟩

/-- C8 (code bug), evaluation at the failing input.  Mesh shape
`(nz, ny, nx) = (2, 1, 7)`, seeds (in list order) at cells 10 and 12 with
density 1 and at cells 8 and 0 with density 2.  After the initial frontiers
are built, the conflict-resolution pass of `grow` — the only raise site of
"seeds too close" in the whole function — iterates over each seed's
neighbour list while removing from it, so the candidate directly after a
removed (equal-density) shared candidate is never examined.  Here cells 9
and 2 end up shared by the frontiers of seed 0 (density 1) and seed 2
(density 2), yet the pass completes without raising; the companion
conjunct shows the same pass does raise on a plain two-seed conflict, so
the failure is the skip, not the absence of the check. -/
theorem claim_C8_conflict_survives :
    Pgrav.growInit 2 1 7 [(10, 1), (12, 1), (8, 2), (0, 2)] =
      .ok [{ param := 10, density := 1, neighbors := [3, 9, 2] },
           { param := 12, density := 1, neighbors := [5, 13, 11, 6, 4] },
           { param := 8, density := 2, neighbors := [9, 2] },
           { param := 0, density := 2, neighbors := [7, 1] }]
    ∧ ((1 : ℚ) ≠ (2 : ℚ))
    ∧ Pgrav.growInit 1 1 3 [(0, 1), (2, 2)] = .error (.seedsTooClose 0 1) := by
  refine ⟨rfl, by norm_num, rfl⟩

/-- The final seeds of the two-cell disjoint-property run. -/
def runRowSeedsFinal : List Seed :=
  match runRow with
  | .ok r => r.finalState.seeds
  | .error _ => []

/-- C1, counterexample: in the two-cell run with property-disjoint seeds,
the harvest completes and cell 1 ends up in the estimates of both seeds —
the density seed grows onto the susceptibility seed's own cell, because
`_in_estimate`/`_is_neighbor` only exclude cells claimed by seeds sharing a
physical property.  So the claimed invariant fails exactly in the
disjoint-property case it asserts to cover. -/
theorem claim_C1_counterexample :
    runRow.isOk = true
    ∧ (1 : ℕ) ∈ (runRowSeedsFinal.getD 0 default).estimate
    ∧ (1 : ℕ) ∈ (runRowSeedsFinal.getD 1 default).estimate
    ∧ sharesPropB (runRowSeedsFinal.getD 0 default).props
        (runRowSeedsFinal.getD 1 default).props = false := by
  refine ⟨by with_unfolding_all rfl, ?_, ?_, by with_unfolding_all rfl⟩
  · with_unfolding_all decide
  · with_unfolding_all decide

/-- C5, counterexample: in the same two-cell run, the very first accepted
growth accretes cell 1 into the density seed's estimate although cell 1 is
already accreted (it is the susceptibility seed's own seed cell, a member
of that seed's estimate since initialization) — refuting the claim that
each accepted growth adds a previously unaccreted cell. -/
theorem claim_C5_counterexample :
    (growSeed id meshRow2 runRowSetup.dms runRowSetup.seeds 0
        (runRowSetup.misfits.getLastD 0)).1 = some (1, [(densityKey, 1)], 0, 0)
    ∧ (1 : ℕ) ∈ (runRowSetup.seeds.getD 1 default).estimate := by
  refine ⟨by with_unfolding_all rfl, by with_unfolding_all decide⟩

theorem lookup_filter_ne (c : Props) (k k' : ℕ) (h : k' ≠ k) :
    (c.filter (fun q => q.1 ≠ k)).lookup k' = c.lookup k' := by
  induction c with
  | nil => simp
  | cons p c ih =>
      obtain ⟨pk, pv⟩ := p
      rw [List.filter_cons]
      by_cases hp : pk = k
      · rw [if_neg (by simp [hp])]
        rw [ih, List.lookup_cons]
        have hne : (k' == pk) = false := beq_eq_false_iff_ne.mpr (by rw [hp]; exact h)
        rw [hne]
      · rw [if_pos (by simp [hp])]
        rw [List.lookup_cons, List.lookup_cons, ih]

theorem setProp_lookup_self (c : Props) (k : ℕ) (v : ℚ) :
    (setProp c k v).lookup k = some v := by
  rw [setProp, List.lookup_cons]
  simp

theorem setProp_lookup_ne (c : Props) (k : ℕ) (v : ℚ) (k' : ℕ) (h : k' ≠ k) :
    (setProp c k v).lookup k' = c.lookup k' := by
  have hne : (k' == k) = false := beq_eq_false_iff_ne.mpr h
  rw [setProp, List.lookup_cons, hne, lookup_filter_ne c k k' h]

theorem addProps_cons (cell : Props) (p : ℕ × ℚ) (ps : Props) :
    addProps cell (p :: ps) = addProps (setProp cell p.1 p.2) ps := rfl

theorem addProps_lookup_not_mem (cell props : Props) (k : ℕ)
    (h : k ∉ props.map Prod.fst) :
    (addProps cell props).lookup k = cell.lookup k := by
  induction props generalizing cell with
  | nil => rfl
  | cons p ps ih =>
      rw [addProps_cons, ih _ (fun hk => h (by simpa using Or.inr hk))]
      exact setProp_lookup_ne cell p.1 p.2 k (fun he => h (by simp [he]))

theorem addProps_lookup_mem (cell props : Props) (k : ℕ) (v : ℚ)
    (hmem : (k, v) ∈ props) (hnd : (props.map Prod.fst).Nodup) :
    (addProps cell props).lookup k = some v := by
  induction props generalizing cell with
  | nil => cases hmem
  | cons p ps ih =>
      rcases List.mem_cons.mp hmem with heq | htl
      · subst heq
        rw [addProps_cons]
        have hnd' : (k :: ps.map Prod.fst).Nodup := by simpa using hnd
        have hk : k ∉ ps.map Prod.fst := (List.nodup_cons.mp hnd').1
        rw [addProps_lookup_not_mem _ _ _ hk]
        exact setProp_lookup_self cell k v
      · rw [addProps_cons]
        have hnd' : (p.1 :: ps.map Prod.fst).Nodup := by simpa using hnd
        exact ih (setProp cell p.1 p.2) htl (List.nodup_cons.mp hnd').2

/-- C10.  The second-invariant module's what-if query has a lasting side
effect on the shared mesh: whenever `props` contains the tracked property
(`'density'`), `DMPrismI2.testdrive` writes every property of `props` onto
the mesh cell at `index` via `addprop` — the returned mesh retains those
values — while the module itself (its predicted vector and accumulated
estimate) is returned unchanged, and no other mesh cell is touched. -/
theorem claim_C10_testdrive_mesh_side_effect
    (dm : DMI2) (mesh : MeshProps) (index : ℕ) (props : Props)
    (hd : Props.hasKey props densityKey = true)
    (hnd : (props.map Prod.fst).Nodup) :
    (dm.testdrive mesh index props).2.1 = dm
    ∧ ((dm.testdrive mesh index props).2.2) index = addProps (mesh index) props
    ∧ (∀ k v, (k, v) ∈ props →
        (((dm.testdrive mesh index props).2.2) index).lookup k = some v)
    ∧ (∀ j, j ≠ index → ((dm.testdrive mesh index props).2.2) j = mesh j) := by
  have ht : (dm.testdrive mesh index props).2 =
      (dm, fun j => if j = index then addProps (mesh index) props else mesh j) := by
    unfold DMI2.testdrive
    rw [if_pos hd]
  rw [ht]
  refine ⟨rfl, by simp, ?_, ?_⟩
  · intro k v hkv
    simpa using addProps_lookup_mem (mesh index) props k v hkv hnd
  · intro j hj
    simp [hj]

/-- A concrete second-invariant module for the C10 witness. -/
def i2Row : DMI2 :=
  { data := [2], predicted := [0], weight := 1 / 2, norm := 1, estimate := [],
    effCellsFn := fun _ => [0] }

/-- Witness for C10: testdriving `i2Row` at cell 1 with a density 5 and
susceptibility 3 element leaves the module unchanged but stores both
values on mesh cell 1. -/
theorem claim_C10_witness :
    Props.hasKey [(densityKey, 5), (susceptibilityKey, 3)] densityKey = true
    ∧ (i2Row.testdrive (fun _ => []) 1 [(densityKey, 5), (susceptibilityKey, 3)]).2.1 = i2Row
    ∧ (((i2Row.testdrive (fun _ => []) 1
          [(densityKey, 5), (susceptibilityKey, 3)]).2.2) 1).lookup densityKey = some 5
    ∧ (((i2Row.testdrive (fun _ => []) 1
          [(densityKey, 5), (susceptibilityKey, 3)]).2.2) 0).lookup densityKey = none := by
  have h := claim_C10_testdrive_mesh_side_effect i2Row (fun _ => []) 1
    [(densityKey, 5), (susceptibilityKey, 3)] (by decide) (by decide)
  refine ⟨by decide, h.1, h.2.2.1 densityKey 5 (by simp), ?_⟩
  rw [h.2.2.2 0 (by decide)]
  rfl

theorem addv_left_comm (p a b : List ℚ) : addv (addv p a) b = addv (addv p b) a := by
  induction p generalizing a b with
  | nil => simp [addv]
  | cons x p ih =>
      cases a with
      | nil => simp [addv]
      | cons y a =>
          cases b with
          | nil => simp [addv]
          | cons z b =>
              simp only [addv, List.zipWith_cons_cons]
              refine congrArg₂ List.cons (by ring) ?_
              simpa [addv] using ih a b

theorem foldl_addv_perm (p : List ℚ) {l l' : List (List ℚ)} (h : l.Perm l') :
    l.foldl addv p = l'.foldl addv p := by
  induction h generalizing p with
  | nil => rfl
  | cons x _ ih => simp only [List.foldl_cons]; exact ih _
  | swap x y l => simp only [List.foldl_cons]; rw [addv_left_comm]
  | trans _ _ ih1 ih2 => exact (ih1 p).trans (ih2 p)

theorem DM_updates_additive (dm : DM) (l : List (ℕ × Props))
    (hkeys : ∀ e ∈ l, Props.hasKey e.2 dm.propType = true)
    (hdist : (l.map Prod.fst).Nodup)
    (hcache : ∀ e ∈ l,
      dm.effect e.1 = none ∨ dm.effect e.1 = some (dm.effectFn e.1 e.2)) :
    (dm.updates l).predicted =
      (l.map (fun e => dm.effectFn e.1 e.2)).foldl addv dm.predicted := by
  induction l generalizing dm with
  | nil => rfl
  | cons e rest ih =>
      obtain ⟨n, pr⟩ := e
      have hk : Props.hasKey pr dm.propType = true := hkeys (n, pr) (by simp)
      have heff : (dm.effect n).getD (dm.effectFn n pr) = dm.effectFn n pr := by
        rcases hcache (n, pr) (by simp) with hc | hc <;> simp [hc]
      have hstep : dm.update n pr =
          { dm with
            predicted := addv dm.predicted (dm.effectFn n pr)
            effect := fun j => if j = n then none else dm.effect j } := by
        rw [DM.update, if_pos hk, heff]
      have hn : n ∉ rest.map Prod.fst := (List.nodup_cons.mp (by simpa using hdist)).1
      rw [DM.updates, List.foldl_cons, ← DM.updates, hstep]
      rw [ih]
      · simp
      · intro e he
        exact hkeys e (by simp [he])
      · exact (List.nodup_cons.mp (by simpa using hdist)).2
      · intro e he
        have hne : e.1 ≠ n := fun hc => hn (hc ▸ List.mem_map_of_mem Prod.fst he)
        rcases hcache e (by simp [he]) with hc | hc
        · exact Or.inl (by simp [hne, hc])
        · exact Or.inr (by simp [hne, hc])

/-- C7.  Additivity and order-independence of `update` for the non-invariant
prism data modules: updating a duplicate-free family of cells (with the
tracked property present, and with no stale cache entries for those cells)
in any order yields the initial predicted vector plus the pointwise sum of
the cells' individually computed effect vectors. -/
theorem claim_C7_update_additive_any_order
    (dm : DM) (l l' : List (ℕ × Props)) (hperm : l.Perm l')
    (hkeys : ∀ e ∈ l, Props.hasKey e.2 dm.propType = true)
    (hdist : (l.map Prod.fst).Nodup)
    (hcache : ∀ e ∈ l,
      dm.effect e.1 = none ∨ dm.effect e.1 = some (dm.effectFn e.1 e.2)) :
    (dm.updates l').predicted =
      (l.map (fun e => dm.effectFn e.1 e.2)).foldl addv dm.predicted := by
  have h1 := DM_updates_additive dm l'
    (fun e he => hkeys e (hperm.mem_iff.mpr he))
    ((hperm.map Prod.fst).nodup_iff.mp hdist)
    (fun e he => hcache e (hperm.mem_iff.mpr he))
  rw [h1]
  exact foldl_addv_perm dm.predicted ((hperm.map _).symm)

/-- Witness for C7: updating the two cells of the two-cell module in
reversed order gives the initial vector plus the two unit effects. -/
theorem claim_C7_witness :
    [((0 : ℕ), [(densityKey, (1 : ℚ))]), (1, [(densityKey, 2)])].Perm
      [(1, [(densityKey, 2)]), (0, [(densityKey, 1)])]
    ∧ (dmRow.updates [(1, [(densityKey, 2)]), (0, [(densityKey, 1)])]).predicted =
      ([[(1 : ℚ)], [1]]).foldl addv dmRow.predicted := by
  have hp : [((0 : ℕ), [(densityKey, (1 : ℚ))]), (1, [(densityKey, 2)])].Perm
      [(1, [(densityKey, 2)]), (0, [(densityKey, 1)])] := List.Perm.swap _ _ _
  refine ⟨hp, ?_⟩
  have h := claim_C7_update_additive_any_order dmRow
    [((0 : ℕ), [(densityKey, (1 : ℚ))]), (1, [(densityKey, 2)])]
    [(1, [(densityKey, 2)]), (0, [(densityKey, 1)])] hp
    (by decide) (by decide) (by intro e _; exact Or.inl rfl)
  simpa using h

theorem testdriveAll_go_length (props : Props) (ns : List ℕ) :
    ∀ (acc : List ℚ × List DM),
      (ns.foldl
        (fun acc n =>
          let r := testdriveSum acc.2 n props
          (acc.1 ++ [r.1], r.2)) acc).1.length = acc.1.length + ns.length := by
  induction ns with
  | nil => intro acc; simp
  | cons n ns ih =>
      intro acc
      rw [List.foldl_cons, ih]
      simp
      omega

theorem testdriveAll_fst_length (dms : List DM) (ns : List ℕ) (props : Props) :
    (testdriveAll dms ns props).1.length = ns.length := by
  unfold testdriveAll
  rw [testdriveAll_go_length]
  simp

theorem getD_map_q (l : List ℕ) (f : ℕ → ℚ) (i : ℕ) (hi : i < l.length) :
    (l.map f).getD i 0 = f (l.getD i 0) := by
  rw [List.getD_eq_getElem _ _ (by simpa using hi), List.getD_eq_getElem _ _ hi,
    List.getElem_map]

theorem goals_getD (ns : List ℕ) (tds : List ℚ) (h : tds.length = ns.length)
    (reg mu : ℚ) (dist : ℕ → ℚ) (j : ℕ) (hj : j < ns.length) :
    ((ns.zip tds).map (fun p => p.2 + reg + mu * dist p.1)).getD j 0 =
      tds.getD j 0 + reg + mu * dist (ns.getD j 0) := by
  have hzlen : j < (ns.zip tds).length := by
    rw [List.length_zip]
    omega
  rw [List.getD_eq_getElem _ _ (by simpa using hzlen),
    List.getElem_map, List.getElem_zip,
    List.getD_eq_getElem _ _ hj, List.getD_eq_getElem _ _ (by omega)]

/-- The acceptance condition of `_judge`: the candidate's misfit decreases
and does so by at least the relative threshold `delta`. -/
def judgeAccepts (delta misfit m : ℚ) : Prop :=
  m < misfit ∧ |m - misfit| / misfit ≥ delta

instance (delta misfit m : ℚ) : Decidable (judgeAccepts delta misfit m) := by
  unfold judgeAccepts
  infer_instance

theorem judge_none_iff (delta : ℚ) (goals misfits : List ℚ) (misfit : ℚ) :
    judge delta goals misfits misfit = none ↔
      ∀ i, i < misfits.length → ¬judgeAccepts delta misfit (misfits.getD i 0) := by
  unfold judge
  constructor
  · intro h i hi hq
    by_cases hemp : ((List.range misfits.length).filter
        (fun i => decide (misfits.getD i 0 < misfit) &&
          decide (|misfits.getD i 0 - misfit| / misfit ≥ delta))).isEmpty
    · have : i ∈ (List.range misfits.length).filter
          (fun i => decide (misfits.getD i 0 < misfit) &&
            decide (|misfits.getD i 0 - misfit| / misfit ≥ delta)) := by
        refine List.mem_filter.mpr ⟨List.mem_range.mpr hi, ?_⟩
        simp only [Bool.and_eq_true, decide_eq_true_eq]
        exact ⟨hq.1, hq.2⟩
      rw [List.isEmpty_iff] at hemp
      rw [hemp] at this
      cases this
    · rw [if_neg hemp] at h
      cases h
  · intro h
    rw [if_pos]
    rw [List.isEmpty_iff, List.filter_eq_nil_iff]
    intro i hir
    have hi := List.mem_range.mp hir
    intro hcond
    simp only [Bool.and_eq_true, decide_eq_true_eq] at hcond
    exact h i hi ⟨hcond.1, hcond.2⟩

theorem judge_some_spec (delta : ℚ) (goals misfits : List ℚ) (misfit : ℚ)
    (b : ℕ) (g mi : ℚ)
    (h : judge delta goals misfits misfit = some (b, g, mi)) :
    b < misfits.length
    ∧ judgeAccepts delta misfit (misfits.getD b 0)
    ∧ g = goals.getD b 0 ∧ mi = misfits.getD b 0
    ∧ ∀ j, j < misfits.length → judgeAccepts delta misfit (misfits.getD j 0) →
        g ≤ goals.getD j 0 := by
  unfold judge at h
  by_cases hemp : ((List.range misfits.length).filter
      (fun i => decide (misfits.getD i 0 < misfit) &&
        decide (|misfits.getD i 0 - misfit| / misfit ≥ delta))).isEmpty
  · rw [if_pos hemp] at h
    cases h
  · rw [if_neg hemp] at h
    simp only [Option.some.injEq, Prod.mk.injEq] at h
    obtain ⟨hb1, hg1, hmi1⟩ := h
    have hb : b = ((List.range misfits.length).filter
        (fun i => decide (misfits.getD i 0 < misfit) &&
          decide (|misfits.getD i 0 - misfit| / misfit ≥ delta))).getD
      (argminIdx (((List.range misfits.length).filter
        (fun i => decide (misfits.getD i 0 < misfit) &&
          decide (|misfits.getD i 0 - misfit| / misfit ≥ delta))).map
        (fun i => goals.getD i 0))) 0 := hb1.symm
    have hg : g = goals.getD b 0 := by rw [← hg1, hb1]
    have hmi : mi = misfits.getD b 0 := by rw [← hmi1, hb1]
    obtain ⟨decr, hdecr⟩ : ∃ decr, decr = (List.range misfits.length).filter
        (fun i => decide (misfits.getD i 0 < misfit) &&
          decide (|misfits.getD i 0 - misfit| / misfit ≥ delta)) := ⟨_, rfl⟩
    rw [← hdecr] at hb
    have hdne : decr ≠ [] := by
      rw [hdecr]
      intro hc
      rw [List.isEmpty_iff] at hemp
      exact hemp hc
    have hmapne : decr.map (fun i => goals.getD i 0) ≠ [] := by
      simpa using hdne
    have haidx : argminIdx (decr.map (fun i => goals.getD i 0)) < decr.length := by
      have := argminIdx_lt_length _ hmapne
      simpa using this
    have hbmem : b ∈ decr := by
      rw [hb, List.getD_eq_getElem _ _ haidx]
      exact List.getElem_mem _
    have hbfilter := hdecr ▸ hbmem
    have hbrange := (List.mem_filter.mp hbfilter).1
    have hbcond := (List.mem_filter.mp hbfilter).2
    simp only [Bool.and_eq_true, decide_eq_true_eq] at hbcond
    refine ⟨List.mem_range.mp hbrange, ⟨hbcond.1, hbcond.2⟩, hg, hmi, ?_⟩
    intro j hj hQj
    have hjmem : j ∈ decr := by
      rw [hdecr]
      refine List.mem_filter.mpr ⟨List.mem_range.mpr hj, ?_⟩
      simp only [Bool.and_eq_true, decide_eq_true_eq]
      exact ⟨hQj.1, hQj.2⟩
    obtain ⟨pos, hpos, hposj⟩ := List.mem_iff_getElem.mp hjmem
    have hmin := argminIdx_min (decr.map (fun i => goals.getD i 0)) pos
      (by simpa using hpos)
    rw [getD_map_q _ _ _ haidx, getD_map_q _ _ _ hpos] at hmin
    rw [hg, hb]
    have hjeq : decr.getD pos 0 = j := by
      rw [List.getD_eq_getElem _ _ hpos]
      exact hposj
    rw [← hjeq]
    exact hmin

/-- C3.  The acceptance rule of a growth step, for the seed at position `i`
with current misfit `misfit > 0`.  If `grow` returns an accepted accretion
`(n, props, goal', misfit')` then: the properties are the seed's own; the
accepted candidate's hypothetical misfit satisfies `misfit' < misfit` and
`(misfit - misfit') / misfit ≥ delta`; the candidate is the `b`-th frontier
entry with `misfit'` its testdrive sum and `goal'` its hypothetical goal
(misfit plus the sum of all seeds' accumulated regularization plus
`mu * distance`); and `goal'` is least among the hypothetical goals of all
frontier candidates meeting the misfit condition.  If no frontier candidate
meets the misfit condition, `grow` returns no growth. -/
theorem claim_C3_grow_acceptance_rule
    (msqrt : ℚ → ℚ) (mesh : Mesh) (dms : List DM) (seeds : List Seed) (i : ℕ)
    (misfit : ℚ) (_hm : 0 < misfit)
    (s : Seed) (hs : s = seeds.getD i default)
    (tds : List ℚ) (htds : tds = (testdriveAll dms s.neighbors s.props).1)
    (reg : ℚ) (hreg : reg = (seeds.map Seed.reg).sum) :
    (∀ n props goal' misfit',
        (growSeed msqrt mesh dms seeds i misfit).1 = some (n, props, goal', misfit') →
        props = s.props
        ∧ misfit' < misfit
        ∧ (misfit - misfit') / misfit ≥ s.delta
        ∧ ∃ b, b < s.neighbors.length
            ∧ n = s.neighbors.getD b 0
            ∧ misfit' = tds.getD b 0
            ∧ goal' = tds.getD b 0 + reg + s.mu * s.distOf n
            ∧ ∀ j, j < s.neighbors.length →
                tds.getD j 0 < misfit →
                (misfit - tds.getD j 0) / misfit ≥ s.delta →
                goal' ≤ tds.getD j 0 + reg + s.mu * s.distOf (s.neighbors.getD j 0))
    ∧ ((∀ j, j < s.neighbors.length →
          ¬(tds.getD j 0 < misfit ∧ (misfit - tds.getD j 0) / misfit ≥ s.delta)) →
        (growSeed msqrt mesh dms seeds i misfit).1 = none) := by
  have hlen : tds.length = s.neighbors.length := by
    rw [htds, testdriveAll_fst_length]
  have key : (growSeed msqrt mesh dms seeds i misfit).1 =
      match judge s.delta ((s.neighbors.zip tds).map
          (fun p => p.2 + reg + s.mu * s.distOf p.1)) tds misfit with
      | none => none
      | some (best, goal', misfit') =>
          some (s.neighbors.getD best 0, s.props, goal', misfit') := by
    subst hs htds hreg
    simp only [growSeed]
    rcases hj : judge (seeds.getD i default).delta
        (((seeds.getD i default).neighbors.zip
          (testdriveAll dms (seeds.getD i default).neighbors
            (seeds.getD i default).props).1).map
          (fun p => p.2 + (seeds.map Seed.reg).sum +
            (seeds.getD i default).mu * (seeds.getD i default).distOf p.1))
        (testdriveAll dms (seeds.getD i default).neighbors
          (seeds.getD i default).props).1 misfit with
      _ | ⟨best, goal', misfit'⟩ <;>
      rw [hj]
  have habs : ∀ m : ℚ, m < misfit → |m - misfit| = misfit - m := by
    intro m hmlt
    rw [abs_of_neg (by linarith)]
    ring
  constructor
  · intro n props goal' misfit' hsome
    rw [key] at hsome
    rcases hj : judge s.delta ((s.neighbors.zip tds).map
        (fun p => p.2 + reg + s.mu * s.distOf p.1)) tds misfit with
      _ | ⟨b, g', m'⟩
    · rw [hj] at hsome
      cases hsome
    · rw [hj] at hsome
      obtain ⟨hn, hprops, hg, hm'⟩ : n = s.neighbors.getD b 0 ∧ props = s.props ∧
          goal' = g' ∧ misfit' = m' := by
        have := Option.some.inj hsome
        exact ⟨(congrArg Prod.fst this).symm,
          (congrArg (fun q => q.2.1) this).symm,
          (congrArg (fun q => q.2.2.1) this).symm,
          (congrArg (fun q => q.2.2.2) this).symm⟩
      obtain ⟨hblt, hbQ, hgeq, hmieq, hminim⟩ := judge_some_spec _ _ _ _ _ _ _ hj
      have hblt' : b < s.neighbors.length := hlen ▸ hblt
      have hmis : misfit' = tds.getD b 0 := by rw [hm', hmieq]
      have hmlt : misfit' < misfit := hmis ▸ hbQ.1
      refine ⟨hprops, hmlt, ?_, b, hblt', hn, hmis, ?_, ?_⟩
      · have := hbQ.2
        rw [habs _ hbQ.1] at this
        rw [hmis]
        exact this
      · rw [hg, hgeq, goals_getD s.neighbors tds hlen reg s.mu s.distOf b hblt', hn]
      · intro j hj' hjlt hjdelta
        have hQj : judgeAccepts s.delta misfit (tds.getD j 0) := by
          refine ⟨hjlt, ?_⟩
          rw [habs _ hjlt]
          exact hjdelta
        have h2 := hminim j (hlen.symm ▸ hj') hQj
        rw [hg, ← goals_getD s.neighbors tds hlen reg s.mu s.distOf j hj']
        exact h2
  · intro hnone
    rw [key]
    have : judge s.delta ((s.neighbors.zip tds).map
        (fun p => p.2 + reg + s.mu * s.distOf p.1)) tds misfit = none := by
      rw [judge_none_iff]
      intro j hj hQ
      have hj' : j < s.neighbors.length := hlen ▸ hj
      refine hnone j hj' ⟨hQ.1, ?_⟩
      have := hQ.2
      rw [habs _ hQ.1] at this
      exact this
    rw [this]

/-- Witness for C3: the density seed's first growth step in the two-cell
run accepts cell 1, and the theorem's acceptance conditions apply to it at
the concrete states. -/
theorem claim_C3_witness :
    (0 : ℚ) < 1 / 2
    ∧ ((∀ n props goal' misfit',
        (growSeed id meshRow2 runRowSetup.dms runRowSetup.seeds 0 (1 / 2)).1 =
          some (n, props, goal', misfit') →
        props = (runRowSetup.seeds.getD 0 default).props
        ∧ misfit' < 1 / 2
        ∧ (1 / 2 - misfit') / (1 / 2) ≥ (runRowSetup.seeds.getD 0 default).delta
        ∧ ∃ b, b < (runRowSetup.seeds.getD 0 default).neighbors.length
            ∧ n = (runRowSetup.seeds.getD 0 default).neighbors.getD b 0
            ∧ misfit' = ((testdriveAll runRowSetup.dms
                (runRowSetup.seeds.getD 0 default).neighbors
                (runRowSetup.seeds.getD 0 default).props).1).getD b 0
            ∧ goal' = ((testdriveAll runRowSetup.dms
                (runRowSetup.seeds.getD 0 default).neighbors
                (runRowSetup.seeds.getD 0 default).props).1).getD b 0
                + (runRowSetup.seeds.map Seed.reg).sum
                + (runRowSetup.seeds.getD 0 default).mu *
                  (runRowSetup.seeds.getD 0 default).distOf n
            ∧ ∀ j, j < (runRowSetup.seeds.getD 0 default).neighbors.length →
                ((testdriveAll runRowSetup.dms
                  (runRowSetup.seeds.getD 0 default).neighbors
                  (runRowSetup.seeds.getD 0 default).props).1).getD j 0 < 1 / 2 →
                (1 / 2 - ((testdriveAll runRowSetup.dms
                  (runRowSetup.seeds.getD 0 default).neighbors
                  (runRowSetup.seeds.getD 0 default).props).1).getD j 0) / (1 / 2) ≥
                  (runRowSetup.seeds.getD 0 default).delta →
                goal' ≤ ((testdriveAll runRowSetup.dms
                  (runRowSetup.seeds.getD 0 default).neighbors
                  (runRowSetup.seeds.getD 0 default).props).1).getD j 0
                  + (runRowSetup.seeds.map Seed.reg).sum
                  + (runRowSetup.seeds.getD 0 default).mu *
                    (runRowSetup.seeds.getD 0 default).distOf
                      ((runRowSetup.seeds.getD 0 default).neighbors.getD j 0))
      ∧ ((∀ j, j < (runRowSetup.seeds.getD 0 default).neighbors.length →
          ¬(((testdriveAll runRowSetup.dms
              (runRowSetup.seeds.getD 0 default).neighbors
              (runRowSetup.seeds.getD 0 default).props).1).getD j 0 < 1 / 2
            ∧ (1 / 2 - ((testdriveAll runRowSetup.dms
              (runRowSetup.seeds.getD 0 default).neighbors
              (runRowSetup.seeds.getD 0 default).props).1).getD j 0) / (1 / 2) ≥
              (runRowSetup.seeds.getD 0 default).delta)) →
        (growSeed id meshRow2 runRowSetup.dms runRowSetup.seeds 0 (1 / 2)).1 = none)) := by
  refine ⟨by norm_num, ?_⟩
  exact claim_C3_grow_acceptance_rule id meshRow2 runRowSetup.dms runRowSetup.seeds 0
    (1 / 2) (by norm_num) (runRowSetup.seeds.getD 0 default) rfl
    ((testdriveAll runRowSetup.dms (runRowSetup.seeds.getD 0 default).neighbors
      (runRowSetup.seeds.getD 0 default).props).1) rfl
    ((runRowSetup.seeds.map Seed.reg).sum) rfl

/-!
The bookkeeping invariant of the seeded-growth solver.  `validSeed` is the
per-seed part (duplicate-free, in-bounds estimate and frontier, disjoint
from each other, a placed seed cell, and a nonempty property dictionary —
`SeedPrism` seeds always carry the properties the seed is meant to plant).
`pairSeparated` is the pairwise part for two seeds that share a physical
property: estimates and frontiers mutually disjoint, exactly what the
`_in_estimate`/`_is_neighbor` exclusions re-establish after every change.
-/

def validSeed (size : ℕ) (s : Seed) : Prop :=
  s.estimate.Nodup ∧ s.neighbors.Nodup
  ∧ (∀ n ∈ s.estimate, n < size) ∧ (∀ n ∈ s.neighbors, n < size)
  ∧ (∀ n ∈ s.neighbors, n ∉ s.estimate)
  ∧ s.index < size
  ∧ s.props ≠ []

def pairSeparated (a b : Seed) : Prop :=
  (∀ n ∈ a.estimate, n ∉ b.estimate)
  ∧ (∀ n ∈ a.neighbors, n ∉ b.neighbors)
  ∧ (∀ n ∈ a.estimate, n ∉ b.neighbors)
  ∧ (∀ n ∈ a.neighbors, n ∉ b.estimate)

def SeedsInv (mesh : Mesh) (seeds : List Seed) : Prop :=
  (∀ s ∈ seeds, validSeed mesh.size s)
  ∧ (∀ i j, i < seeds.length → j < seeds.length → i ≠ j →
      sharesPropB (seeds.getD i default).props (seeds.getD j default).props = true →
      pairSeparated (seeds.getD i default) (seeds.getD j default))

/-- Total number of accreted cells over all seeds (each seed's estimate
starts as its own cell and only ever grows by appends). -/
def estSize (seeds : List Seed) : ℕ :=
  (seeds.map (fun s => s.estimate.length)).sum

/-- The state after `k` full rounds of the solver loop. -/
def roundIter (msqrt : ℚ → ℚ) (mesh : Mesh) (st : SolverState) : ℕ → SolverState
  | 0 => st
  | k + 1 => (roundPass msqrt mesh (roundIter msqrt mesh st k)).1

theorem seed_getD_mem (l : List Seed) (j : ℕ) (hj : j < l.length) :
    l.getD j default ∈ l := by
  rw [List.getD_eq_getElem _ _ hj]
  exact List.getElem_mem _

theorem sharesPropB_true_iff (a b : Props) :
    sharesPropB a b = true ↔ ∃ p ∈ a, ∃ q ∈ b, q.1 = p.1 := by
  simp only [sharesPropB, Props.hasKey, List.any_eq_true, beq_iff_eq]

theorem sharesPropB_self (props : Props) (h : props ≠ []) :
    sharesPropB props props = true := by
  cases props with
  | nil => exact absurd rfl h
  | cons p ps =>
      rw [sharesPropB_true_iff]
      exact ⟨p, by simp, p, by simp, rfl⟩

theorem sharesPropB_symm (a b : Props) (h : sharesPropB a b = true) :
    sharesPropB b a = true := by
  rw [sharesPropB_true_iff] at h ⊢
  obtain ⟨p, hp, q, hq, hqp⟩ := h
  exact ⟨q, hq, p, hp, hqp.symm⟩

theorem inEstimateB_true_iff (selfProps : Props) (n : ℕ) (seeds : List Seed) :
    inEstimateB selfProps n seeds = true ↔
      ∃ t ∈ seeds, sharesPropB selfProps t.props = true ∧ n ∈ t.estimate := by
  simp [inEstimateB, List.any_eq_true, Bool.and_eq_true]

theorem isNeighborB_true_iff (selfProps : Props) (n : ℕ) (seeds : List Seed) :
    isNeighborB selfProps n seeds = true ↔
      ∃ t ∈ seeds, sharesPropB selfProps t.props = true ∧ n ∈ t.neighbors := by
  simp [isNeighborB, List.any_eq_true, Bool.and_eq_true]

theorem inEstimateB_false_iff (selfProps : Props) (n : ℕ) (seeds : List Seed) :
    inEstimateB selfProps n seeds = false ↔
      ∀ t ∈ seeds, sharesPropB selfProps t.props = true → n ∉ t.estimate := by
  rw [← Bool.not_eq_true, inEstimateB_true_iff]
  push_neg
  constructor
  · intro h t ht hsh
    exact h t ht hsh
  · intro h t ht hsh
    exact h t ht hsh

theorem isNeighborB_false_iff (selfProps : Props) (n : ℕ) (seeds : List Seed) :
    isNeighborB selfProps n seeds = false ↔
      ∀ t ∈ seeds, sharesPropB selfProps t.props = true → n ∉ t.neighbors := by
  rw [← Bool.not_eq_true, isNeighborB_true_iff]
  push_neg
  constructor
  · intro h t ht hsh
    exact h t ht hsh
  · intro h t ht hsh
    exact h t ht hsh

theorem freeCandidates_mem_iff (selfProps : Props) (seeds : List Seed)
    (cands : List ℕ) (n : ℕ) :
    n ∈ freeCandidates selfProps seeds cands ↔
      n ∈ cands
      ∧ (∀ t ∈ seeds, sharesPropB selfProps t.props = true → n ∉ t.estimate)
      ∧ (∀ t ∈ seeds, sharesPropB selfProps t.props = true → n ∉ t.neighbors) := by
  simp only [freeCandidates, List.mem_filter, Bool.not_eq_true']
  rw [inEstimateB_false_iff, isNeighborB_false_iff]
  tauto

theorem freeCandidates_subset (selfProps : Props) (seeds : List Seed)
    (cands : List ℕ) : ∀ n ∈ freeCandidates selfProps seeds cands, n ∈ cands :=
  fun _ hn => ((freeCandidates_mem_iff _ _ _ _).mp hn).1

theorem freeCandidates_nodup (selfProps : Props) (seeds : List Seed)
    (cands : List ℕ) (h : cands.Nodup) :
    (freeCandidates selfProps seeds cands).Nodup :=
  (h.filter _).filter _

theorem getD_set_self (l : List Seed) (i : ℕ) (a : Seed) (h : i < l.length) :
    (l.set i a).getD i default = a := by
  rw [List.getD_eq_getElem _ _ (by simpa using h)]
  simp

theorem getD_set_ne (l : List Seed) (i j : ℕ) (a : Seed) (h : j ≠ i) :
    (l.set i a).getD j default = l.getD j default := by
  by_cases hj : j < l.length
  · rw [List.getD_eq_getElem _ _ (by simpa using hj), List.getD_eq_getElem _ _ hj]
    rw [List.getElem_set, if_neg (fun hc => h hc.symm)]
  · rw [List.getD_eq_default _ _ (by simpa using Nat.le_of_not_lt hj),
      List.getD_eq_default _ _ (Nat.le_of_not_lt hj)]

/-- The grown seed in the middle of an accretion: estimate appended,
regularization accumulated, frontier not yet updated (the state of `self`
at the moment `_update_neighbors` computes the fresh candidates). -/
def accreteMid (seeds : List Seed) (i n : ℕ) : Seed :=
  { seeds.getD i default with
    estimate := (seeds.getD i default).estimate ++ [n]
    reg := (seeds.getD i default).reg +
      (seeds.getD i default).mu * (seeds.getD i default).distOf n }

/-- The fresh frontier candidates added by an accretion. -/
def accreteNew (mesh : Mesh) (seeds : List Seed) (i n : ℕ) : List ℕ :=
  freeCandidates (accreteMid seeds i n).props (seeds.set i (accreteMid seeds i n))
    (findNeighbors mesh n)

/-- The fully updated seed after an accretion. -/
def accreteRes (msqrt : ℚ → ℚ) (mesh : Mesh) (seeds : List Seed) (i n : ℕ) : Seed :=
  Seed.addDistances msqrt mesh
    { accreteMid seeds i n with
      neighbors := (accreteMid seeds i n).neighbors.erase n ++ accreteNew mesh seeds i n
      distance := (accreteMid seeds i n).distance.filter (fun p => p.1 ≠ n) }
    (accreteNew mesh seeds i n)

theorem accrete_eq (msqrt : ℚ → ℚ) (mesh : Mesh) (seeds : List Seed) (i n : ℕ) :
    accrete msqrt mesh seeds i n = seeds.set i (accreteRes msqrt mesh seeds i n) := rfl

theorem accreteRes_estimate (msqrt : ℚ → ℚ) (mesh : Mesh) (seeds : List Seed) (i n : ℕ) :
    (accreteRes msqrt mesh seeds i n).estimate =
      (seeds.getD i default).estimate ++ [n] := rfl

theorem accreteRes_neighbors (msqrt : ℚ → ℚ) (mesh : Mesh) (seeds : List Seed) (i n : ℕ) :
    (accreteRes msqrt mesh seeds i n).neighbors =
      (seeds.getD i default).neighbors.erase n ++ accreteNew mesh seeds i n := rfl

theorem accreteRes_props (msqrt : ℚ → ℚ) (mesh : Mesh) (seeds : List Seed) (i n : ℕ) :
    (accreteRes msqrt mesh seeds i n).props = (seeds.getD i default).props := rfl

theorem accreteRes_index (msqrt : ℚ → ℚ) (mesh : Mesh) (seeds : List Seed) (i n : ℕ) :
    (accreteRes msqrt mesh seeds i n).index = (seeds.getD i default).index := rfl

theorem accreteMid_props (seeds : List Seed) (i n : ℕ) :
    (accreteMid seeds i n).props = (seeds.getD i default).props := rfl

theorem accrete_preserves_inv (msqrt : ℚ → ℚ) (mesh : Mesh) (seeds : List Seed)
    (i n : ℕ) (hi : i < seeds.length)
    (hn : n ∈ (seeds.getD i default).neighbors)
    (hinv : SeedsInv mesh seeds) :
    SeedsInv mesh (accrete msqrt mesh seeds i n) := by
  obtain ⟨hvalid, hpair⟩ := hinv
  have hsv : validSeed mesh.size (seeds.getD i default) :=
    hvalid _ (seed_getD_mem seeds i hi)
  obtain ⟨hestnd, hnbrnd, hestlt, hnbrlt, hdisj, hidx, hprops⟩ := hsv
  have hnlt : n < mesh.size := hnbrlt n hn
  have hnest : n ∉ (seeds.getD i default).estimate := hdisj n hn
  -- the filter facts about the fresh candidates
  have hmid_at : (seeds.set i (accreteMid seeds i n)).getD i default =
      accreteMid seeds i n := getD_set_self seeds i _ hi
  have hmid_mem : accreteMid seeds i n ∈ seeds.set i (accreteMid seeds i n) := by
    have hmem := seed_getD_mem (seeds.set i (accreteMid seeds i n)) i (by simpa using hi)
    rwa [hmid_at] at hmem
  have hself : sharesPropB (accreteMid seeds i n).props
      (accreteMid seeds i n).props = true :=
    sharesPropB_self _ (by rw [accreteMid_props]; exact hprops)
  have hnew_spec : ∀ m ∈ accreteNew mesh seeds i n,
      m ∈ findNeighbors mesh n
      ∧ (∀ t ∈ seeds.set i (accreteMid seeds i n),
          sharesPropB (seeds.getD i default).props t.props = true → m ∉ t.estimate)
      ∧ (∀ t ∈ seeds.set i (accreteMid seeds i n),
          sharesPropB (seeds.getD i default).props t.props = true → m ∉ t.neighbors) := by
    intro m hm
    have := (freeCandidates_mem_iff _ _ _ m).mp hm
    rw [accreteMid_props] at this
    exact this
  have hnew_lt : ∀ m ∈ accreteNew mesh seeds i n, m < mesh.size := by
    intro m hm
    exact findNeighbors_lt mesh n hnlt m (hnew_spec m hm).1
  have hnew_nodup : (accreteNew mesh seeds i n).Nodup :=
    freeCandidates_nodup _ _ _ (findNeighbors_nodup mesh n hnlt)
  have hshare_self : sharesPropB (seeds.getD i default).props
      (accreteMid seeds i n).props = true := by
    rw [accreteMid_props]
    exact sharesPropB_self _ hprops
  have hnew_est' : ∀ m ∈ accreteNew mesh seeds i n,
      m ∉ (seeds.getD i default).estimate ++ [n] := by
    intro m hm
    have := (hnew_spec m hm).2.1 _ hmid_mem hshare_self
    simpa [accreteMid] using this
  have hnew_nbr_self : ∀ m ∈ accreteNew mesh seeds i n,
      m ∉ (seeds.getD i default).neighbors := by
    intro m hm
    have := (hnew_spec m hm).2.2 _ hmid_mem hshare_self
    simpa [accreteMid] using this
  have hother_at : ∀ j, j ≠ i →
      (seeds.set i (accreteMid seeds i n)).getD j default = seeds.getD j default :=
    fun j hj => getD_set_ne seeds i j _ hj
  have hnew_other : ∀ j, j < seeds.length → j ≠ i →
      sharesPropB (seeds.getD i default).props (seeds.getD j default).props = true →
      ∀ m ∈ accreteNew mesh seeds i n,
        m ∉ (seeds.getD j default).estimate ∧ m ∉ (seeds.getD j default).neighbors := by
    intro j hj hji hsh m hm
    have hjmem : seeds.getD j default ∈ seeds.set i (accreteMid seeds i n) := by
      rw [← hother_at j hji]
      exact seed_getD_mem _ j (by simpa using hj)
    exact ⟨(hnew_spec m hm).2.1 _ hjmem hsh, (hnew_spec m hm).2.2 _ hjmem hsh⟩
  -- the two halves of the invariant for the updated list
  rw [accrete_eq]
  constructor
  · -- per-seed validity
    intro t ht
    rcases List.mem_or_eq_of_mem_set ht with htold | hteq
    · exact hvalid t htold
    · subst hteq
      have heq : n ∉ (seeds.getD i default).neighbors.erase n := by
        intro hc
        exact ((List.Nodup.mem_erase_iff hnbrnd).mp hc).1 rfl
      refine ⟨?_, ?_, ?_, ?_, ?_, ?_, ?_⟩
      · -- estimate nodup
        rw [accreteRes_estimate]
        refine List.Nodup.append hestnd (List.nodup_singleton n) ?_
        intro a ha hmem
        rw [List.mem_singleton] at hmem
        subst hmem
        exact hnest ha
      · -- neighbors nodup
        rw [accreteRes_neighbors]
        refine List.Nodup.append (hnbrnd.erase n) hnew_nodup ?_
        intro a ha hmem
        exact hnew_nbr_self a hmem (List.mem_of_mem_erase ha)
      · -- estimate bounds
        rw [accreteRes_estimate]
        intro a ha
        rcases List.mem_append.mp ha with h | h
        · exact hestlt a h
        · rw [List.mem_singleton] at h
          subst h
          exact hnlt
      · -- neighbors bounds
        rw [accreteRes_neighbors]
        intro a ha
        rcases List.mem_append.mp ha with h | h
        · exact hnbrlt a (List.mem_of_mem_erase h)
        · exact hnew_lt a h
      · -- neighbors disjoint from estimate
        rw [accreteRes_neighbors, accreteRes_estimate]
        intro a ha
        rcases List.mem_append.mp ha with h | h
        · have h1 := (List.Nodup.mem_erase_iff hnbrnd).mp h
          intro hc
          rcases List.mem_append.mp hc with h2 | h2
          · exact hdisj a h1.2 h2
          · rw [List.mem_singleton] at h2
            exact h1.1 h2
        · exact hnew_est' a h
      · -- index bound
        rw [accreteRes_index]
        exact hidx
      · -- nonempty props
        rw [accreteRes_props]
        exact hprops
  · -- pairwise separation
    intro j k hj hk hjk hsh
    rw [List.length_set] at hj hk
    by_cases hji : j = i
    · subst hji
      have hki : k ≠ j := fun hc => hjk (hc ▸ rfl)
      rw [getD_set_self seeds j _ hj, getD_set_ne seeds j k _ hki] at hsh ⊢
      rw [accreteRes_props] at hsh
      have hpjk := hpair j k hj hk hjk hsh
      have hnnotk_est : n ∉ (seeds.getD k default).estimate :=
        hpjk.2.2.2 n hn
      have hnnotk_nbr : n ∉ (seeds.getD k default).neighbors :=
        hpjk.2.1 n hn
      refine ⟨?_, ?_, ?_, ?_⟩
      · rw [accreteRes_estimate]
        intro a ha
        rcases List.mem_append.mp ha with h | h
        · exact hpjk.1 a h
        · rw [List.mem_singleton] at h
          subst h
          exact hnnotk_est
      · rw [accreteRes_neighbors]
        intro a ha
        rcases List.mem_append.mp ha with h | h
        · exact hpjk.2.1 a (List.mem_of_mem_erase h)
        · exact (hnew_other k hk hki hsh a h).2
      · rw [accreteRes_estimate]
        intro a ha
        rcases List.mem_append.mp ha with h | h
        · exact hpjk.2.2.1 a h
        · rw [List.mem_singleton] at h
          subst h
          exact hnnotk_nbr
      · rw [accreteRes_neighbors]
        intro a ha
        rcases List.mem_append.mp ha with h | h
        · exact hpjk.2.2.2 a (List.mem_of_mem_erase h)
        · exact (hnew_other k hk hki hsh a h).1
    · by_cases hki : k = i
      · subst hki
        rw [getD_set_ne seeds k j _ hji, getD_set_self seeds k _ hk] at hsh ⊢
        rw [accreteRes_props] at hsh
        have hpji := hpair j k hj hk hjk hsh
        have hshik : sharesPropB (seeds.getD k default).props
            (seeds.getD j default).props = true := sharesPropB_symm _ _ hsh
        have hpij := hpair k j hk hj (fun hc => hjk hc.symm) hshik
        have hnnotj_est : n ∉ (seeds.getD j default).estimate :=
          hpij.2.2.2 n hn
        have hnnotj_nbr : n ∉ (seeds.getD j default).neighbors :=
          hpij.2.1 n hn
        refine ⟨?_, ?_, ?_, ?_⟩
        · rw [accreteRes_estimate]
          intro a ha hc
          rcases List.mem_append.mp hc with h | h
          · exact hpji.1 a ha h
          · rw [List.mem_singleton] at h
            subst h
            exact hnnotj_est ha
        · rw [accreteRes_neighbors]
          intro a ha hc
          rcases List.mem_append.mp hc with h | h
          · exact hpji.2.1 a ha (List.mem_of_mem_erase h)
          · exact (hnew_other j hj hji hshik a h).2 ha
        · rw [accreteRes_neighbors]
          intro a ha hc
          rcases List.mem_append.mp hc with h | h
          · exact hpji.2.2.1 a ha (List.mem_of_mem_erase h)
          · exact (hnew_other j hj hji hshik a h).1 ha
        · rw [accreteRes_estimate]
          intro a ha hc
          rcases List.mem_append.mp hc with h | h
          · exact hpji.2.2.2 a ha h
          · rw [List.mem_singleton] at h
            subst h
            exact hnnotj_nbr ha
      · rw [getD_set_ne seeds i j _ hji, getD_set_ne seeds i k _ hki] at hsh ⊢
        exact hpair j k hj hk hjk hsh

theorem nat_getD_mem (l : List ℕ) (j : ℕ) (hj : j < l.length) :
    l.getD j 0 ∈ l := by
  rw [List.getD_eq_getElem _ _ hj]
  exact List.getElem_mem _

theorem estSize_cons (a : Seed) (l : List Seed) :
    estSize (a :: l) = a.estimate.length + estSize l := by
  simp [estSize]

theorem estSize_set_succ (l : List Seed) : ∀ (i : ℕ) (s : Seed), i < l.length →
    s.estimate.length = (l.getD i default).estimate.length + 1 →
    estSize (l.set i s) = estSize l + 1 := by
  induction l with
  | nil => intro i s hi _; simp at hi
  | cons a l ih =>
      intro i s hi h
      cases i with
      | zero =>
          rw [List.set_cons_zero, estSize_cons, estSize_cons]
          rw [List.getD_cons_zero] at h
          omega
      | succ i =>
          rw [List.set_cons_succ, estSize_cons, estSize_cons]
          rw [List.getD_cons_succ] at h
          rw [ih i s (by simpa using hi) h]
          omega

theorem accrete_length (msqrt : ℚ → ℚ) (mesh : Mesh) (seeds : List Seed) (i n : ℕ) :
    (accrete msqrt mesh seeds i n).length = seeds.length := by
  rw [accrete_eq]
  simp

theorem estSize_accrete (msqrt : ℚ → ℚ) (mesh : Mesh) (seeds : List Seed)
    (i n : ℕ) (hi : i < seeds.length) :
    estSize (accrete msqrt mesh seeds i n) = estSize seeds + 1 := by
  rw [accrete_eq]
  exact estSize_set_succ seeds i _ hi (by rw [accreteRes_estimate]; simp)

theorem growSeed_cases (msqrt : ℚ → ℚ) (mesh : Mesh) (dms : List DM)
    (seeds : List Seed) (i : ℕ) (misfit : ℚ) :
    ((growSeed msqrt mesh dms seeds i misfit).1 = none
      ∧ (growSeed msqrt mesh dms seeds i misfit).2.1 = seeds)
    ∨ ((growSeed msqrt mesh dms seeds i misfit).1 ≠ none
      ∧ ∃ b, b < (seeds.getD i default).neighbors.length
        ∧ (growSeed msqrt mesh dms seeds i misfit).2.1 =
            accrete msqrt mesh seeds i ((seeds.getD i default).neighbors.getD b 0)) := by
  have hlen : (testdriveAll dms (seeds.getD i default).neighbors
      (seeds.getD i default).props).1.length =
      (seeds.getD i default).neighbors.length := testdriveAll_fst_length _ _ _
  simp only [growSeed]
  rcases hj : judge (seeds.getD i default).delta
      (((seeds.getD i default).neighbors.zip
        (testdriveAll dms (seeds.getD i default).neighbors
          (seeds.getD i default).props).1).map
        (fun p => p.2 + (seeds.map Seed.reg).sum +
          (seeds.getD i default).mu * (seeds.getD i default).distOf p.1))
      (testdriveAll dms (seeds.getD i default).neighbors
        (seeds.getD i default).props).1 misfit with
    _ | ⟨b, g, m⟩
  · rw [hj]
    exact Or.inl ⟨rfl, rfl⟩
  · rw [hj]
    refine Or.inr ⟨by simp, b, ?_, rfl⟩
    have hb := (judge_some_spec _ _ _ _ _ _ _ hj).1
    omega

theorem seedStep_master (msqrt : ℚ → ℚ) (mesh : Mesh) (st : SolverState) (i : ℕ)
    (hi : i < st.seeds.length) (hinv : SeedsInv mesh st.seeds) :
    SeedsInv mesh (seedStep msqrt mesh st i).1.seeds
    ∧ (seedStep msqrt mesh st i).1.seeds.length = st.seeds.length
    ∧ ((seedStep msqrt mesh st i).2 = false →
        (seedStep msqrt mesh st i).1.seeds = st.seeds
        ∧ (seedStep msqrt mesh st i).1.misfits = st.misfits)
    ∧ ((seedStep msqrt mesh st i).2 = true →
        estSize (seedStep msqrt mesh st i).1.seeds = estSize st.seeds + 1
        ∧ (seedStep msqrt mesh st i).1.misfits.length = st.misfits.length + 1) := by
  obtain ⟨r, hr⟩ : ∃ r, r = growSeed msqrt mesh st.dms st.seeds i
      (st.misfits.getLastD 0) := ⟨_, rfl⟩
  rcases growSeed_cases msqrt mesh st.dms st.seeds i (st.misfits.getLastD 0) with
    ⟨h1, h2⟩ | ⟨h1, b, hb, h2⟩
  all_goals rw [← hr] at h1 h2
  · have hred : seedStep msqrt mesh st i =
        ({ st with seeds := r.2.1, dms := r.2.2 }, false) := by
      simp only [seedStep, ← hr, h1]
    rw [hred]
    refine ⟨?_, ?_, fun _ => ⟨h2, rfl⟩, fun hc => Bool.noConfusion hc⟩
    · show SeedsInv mesh r.2.1
      rw [h2]
      exact hinv
    · show r.2.1.length = st.seeds.length
      rw [h2]
  · obtain ⟨v, hv⟩ := Option.ne_none_iff_exists'.mp h1
    obtain ⟨n, props, g, m⟩ := v
    have hred : seedStep msqrt mesh st i =
        ({ dms := r.2.2.map (fun dm => dm.update n props), seeds := r.2.1,
           goals := st.goals ++ [g], misfits := st.misfits ++ [m] }, true) := by
      simp only [seedStep, ← hr, hv]
    have hnmem : (st.seeds.getD i default).neighbors.getD b 0 ∈
        (st.seeds.getD i default).neighbors := nat_getD_mem _ b hb
    rw [hred]
    refine ⟨?_, ?_, fun hc => Bool.noConfusion hc, fun _ => ⟨?_, by simp⟩⟩
    · show SeedsInv mesh r.2.1
      rw [h2]
      exact accrete_preserves_inv msqrt mesh st.seeds i _ hi hnmem hinv
    · show r.2.1.length = st.seeds.length
      rw [h2, accrete_length]
    · show estSize r.2.1 = estSize st.seeds + 1
      rw [h2]
      exact estSize_accrete msqrt mesh st.seeds i _ hi

/-- The fold inside `roundPass`, over an explicit index list. -/
def roundGo (msqrt : ℚ → ℚ) (mesh : Mesh) (idxs : List ℕ) (acc : SolverState × Bool) :
    SolverState × Bool :=
  idxs.foldl
    (fun acc i =>
      let r := seedStep msqrt mesh acc.1 i
      (r.1, acc.2 || r.2))
    acc

theorem roundPass_eq_go (msqrt : ℚ → ℚ) (mesh : Mesh) (st : SolverState) :
    roundPass msqrt mesh st =
      roundGo msqrt mesh (List.range st.seeds.length) (st, false) := rfl

theorem roundGo_nil (msqrt : ℚ → ℚ) (mesh : Mesh) (acc : SolverState × Bool) :
    roundGo msqrt mesh [] acc = acc := rfl

theorem roundGo_cons (msqrt : ℚ → ℚ) (mesh : Mesh) (i : ℕ) (idxs : List ℕ)
    (stA : SolverState) (bA : Bool) :
    roundGo msqrt mesh (i :: idxs) (stA, bA) =
      roundGo msqrt mesh idxs
        ((seedStep msqrt mesh stA i).1, bA || (seedStep msqrt mesh stA i).2) := rfl

theorem roundGo_master (msqrt : ℚ → ℚ) (mesh : Mesh) (L : ℕ) :
    ∀ (idxs : List ℕ), (∀ j ∈ idxs, j < L) →
    ∀ (stA : SolverState) (bA : Bool), stA.seeds.length = L → SeedsInv mesh stA.seeds →
      SeedsInv mesh (roundGo msqrt mesh idxs (stA, bA)).1.seeds
      ∧ (roundGo msqrt mesh idxs (stA, bA)).1.seeds.length = L
      ∧ (roundGo msqrt mesh idxs (stA, bA)).1.misfits.length + estSize stA.seeds
          = stA.misfits.length + estSize (roundGo msqrt mesh idxs (stA, bA)).1.seeds
      ∧ estSize stA.seeds ≤ estSize (roundGo msqrt mesh idxs (stA, bA)).1.seeds
      ∧ ((roundGo msqrt mesh idxs (stA, bA)).2 = true ↔
          (bA = true
            ∨ estSize stA.seeds < estSize (roundGo msqrt mesh idxs (stA, bA)).1.seeds)) := by
  intro idxs
  induction idxs with
  | nil =>
      intro _ stA bA hlen hinv
      rw [roundGo_nil]
      refine ⟨hinv, hlen, rfl, le_refl _, ?_⟩
      constructor
      · intro h
        exact Or.inl h
      · rintro (h | h)
        · exact h
        · exact absurd h (lt_irrefl _)
  | cons i idxs ih =>
      intro hidx stA bA hlen hinv
      have hi : i < stA.seeds.length := by
        rw [hlen]
        exact hidx i (by simp)
      obtain ⟨hstInv, hstLen, hstRej, hstAcc⟩ := seedStep_master msqrt mesh stA i hi hinv
      rw [roundGo_cons]
      cases hb : (seedStep msqrt mesh stA i).2 with
      | false =>
          obtain ⟨hse, hme⟩ := hstRej hb
          have hlen' : (seedStep msqrt mesh stA i).1.seeds.length = L := by
            rw [hse, hlen]
          have hinv' : SeedsInv mesh (seedStep msqrt mesh stA i).1.seeds := by
            rw [hse]
            exact hinv
          obtain ⟨c1, c2, c3, c4, c5⟩ := ih (fun j hj => hidx j (by simp [hj]))
            (seedStep msqrt mesh stA i).1 (bA || false) hlen' hinv'
          rw [hse] at c3 c4 c5
          rw [hme] at c3
          exact ⟨c1, c2, c3, c4, by simpa using c5⟩
      | true =>
          obtain ⟨hes, hms⟩ := hstAcc hb
          have hlen' : (seedStep msqrt mesh stA i).1.seeds.length = L := by
            rw [hstLen, hlen]
          obtain ⟨c1, c2, c3, c4, c5⟩ := ih (fun j hj => hidx j (by simp [hj]))
            (seedStep msqrt mesh stA i).1 (bA || true) hlen' hstInv
          refine ⟨c1, c2, by omega, by omega, ?_⟩
          constructor
          · intro _
            exact Or.inr (by omega)
          · intro _
            exact c5.mpr (Or.inl (by simp))

theorem roundPass_master (msqrt : ℚ → ℚ) (mesh : Mesh) (st : SolverState)
    (hinv : SeedsInv mesh st.seeds) :
    SeedsInv mesh (roundPass msqrt mesh st).1.seeds
    ∧ (roundPass msqrt mesh st).1.seeds.length = st.seeds.length
    ∧ (roundPass msqrt mesh st).1.misfits.length + estSize st.seeds
        = st.misfits.length + estSize (roundPass msqrt mesh st).1.seeds
    ∧ ((roundPass msqrt mesh st).2 = true ↔
        estSize st.seeds < estSize (roundPass msqrt mesh st).1.seeds) := by
  have h := roundGo_master msqrt mesh st.seeds.length (List.range st.seeds.length)
    (fun j hj => List.mem_range.mp hj) st false rfl hinv
  obtain ⟨c1, c2, c3, _, c5⟩ := h
  rw [roundPass_eq_go]
  exact ⟨c1, c2, c3, c5.trans (by simp)⟩

theorem solverFuel_succ (msqrt : ℚ → ℚ) (mesh : Mesh) (fuel : ℕ) (st : SolverState) :
    solverFuel msqrt mesh (fuel + 1) st =
      if (roundPass msqrt mesh st).2 then
        solverFuel msqrt mesh fuel (roundPass msqrt mesh st).1
      else ((roundPass msqrt mesh st).1, true) := rfl

theorem estimate_card_le (size : ℕ) (s : Seed) (h : validSeed size s) :
    s.estimate.length ≤ size := by
  obtain ⟨hnd, _, hlt, _⟩ := h
  have h1 : s.estimate.toFinset.card = s.estimate.length :=
    List.toFinset_card_of_nodup hnd
  have h2 : s.estimate.toFinset ⊆ Finset.range size := by
    intro x hx
    rw [List.mem_toFinset] at hx
    rw [Finset.mem_range]
    exact hlt x hx
  have h3 := Finset.card_le_card h2
  rw [Finset.card_range] at h3
  omega

theorem estSize_le_of_valid (mesh : Mesh) (seeds : List Seed)
    (h : ∀ s ∈ seeds, validSeed mesh.size s) :
    estSize seeds ≤ seeds.length * mesh.size := by
  induction seeds with
  | nil => simp [estSize]
  | cons a l ih =>
      rw [estSize_cons]
      have ha := estimate_card_le mesh.size a (h a (by simp))
      have hl := ih (fun s hs => h s (by simp [hs]))
      rw [List.length_cons, Nat.succ_mul]
      omega

theorem solverFuel_master (msqrt : ℚ → ℚ) (mesh : Mesh) :
    ∀ (fuel : ℕ) (st : SolverState), SeedsInv mesh st.seeds →
      SeedsInv mesh (solverFuel msqrt mesh fuel st).1.seeds
      ∧ (solverFuel msqrt mesh fuel st).1.seeds.length = st.seeds.length
      ∧ (solverFuel msqrt mesh fuel st).1.misfits.length + estSize st.seeds
          = st.misfits.length + estSize (solverFuel msqrt mesh fuel st).1.seeds
      ∧ (st.seeds.length * mesh.size < estSize st.seeds + fuel →
          (solverFuel msqrt mesh fuel st).2 = true) := by
  intro fuel
  induction fuel with
  | zero =>
      intro st hinv
      refine ⟨hinv, rfl, rfl, ?_⟩
      intro hf
      exfalso
      have := estSize_le_of_valid mesh st.seeds hinv.1
      omega
  | succ fuel ih =>
      intro st hinv
      obtain ⟨r1, r2, r3, r4⟩ := roundPass_master msqrt mesh st hinv
      rw [solverFuel_succ]
      cases hb : (roundPass msqrt mesh st).2 with
      | false =>
          rw [if_neg Bool.false_ne_true]
          exact ⟨r1, r2, r3, fun _ => rfl⟩
      | true =>
          rw [if_pos rfl]
          obtain ⟨s1, s2, s3, s4⟩ := ih (roundPass msqrt mesh st).1 r1
          refine ⟨s1, by rw [s2, r2], by omega, ?_⟩
          intro hf
          apply s4
          rw [r2]
          have hgrow : estSize st.seeds < estSize (roundPass msqrt mesh st).1.seeds :=
            r4.mp hb
          omega

theorem harvestSolver_master (msqrt : ℚ → ℚ) (mesh : Mesh) (st : SolverState)
    (hinv : SeedsInv mesh st.seeds) :
    SeedsInv mesh (harvestSolver msqrt mesh st).1.seeds
    ∧ (harvestSolver msqrt mesh st).1.seeds.length = st.seeds.length
    ∧ (harvestSolver msqrt mesh st).1.misfits.length + estSize st.seeds
        = st.misfits.length + estSize (harvestSolver msqrt mesh st).1.seeds
    ∧ (harvestSolver msqrt mesh st).2 = true := by
  obtain ⟨c1, c2, c3, c4⟩ :=
    solverFuel_master msqrt mesh (st.seeds.length * mesh.size + 1) st hinv
  exact ⟨c1, c2, c3, c4 (by omega)⟩

theorem roundIter_inv (msqrt : ℚ → ℚ) (mesh : Mesh) (st : SolverState) (k : ℕ)
    (hinv : SeedsInv mesh st.seeds) :
    SeedsInv mesh (roundIter msqrt mesh st k).seeds := by
  induction k with
  | zero => exact hinv
  | succ k ih => exact (roundPass_master msqrt mesh _ ih).1

theorem setup_estimate (msqrt : ℚ → ℚ) (mesh : Mesh) (ss : List Seed) (s : Seed) :
    (Seed.setup msqrt mesh ss s).estimate = s.estimate := rfl

theorem setup_neighbors (msqrt : ℚ → ℚ) (mesh : Mesh) (ss : List Seed) (s : Seed) :
    (Seed.setup msqrt mesh ss s).neighbors =
      s.neighbors ++ freeCandidates s.props ss (findNeighbors mesh s.index) := rfl

theorem setup_props (msqrt : ℚ → ℚ) (mesh : Mesh) (ss : List Seed) (s : Seed) :
    (Seed.setup msqrt mesh ss s).props = s.props := rfl

theorem setup_index (msqrt : ℚ → ℚ) (mesh : Mesh) (ss : List Seed) (s : Seed) :
    (Seed.setup msqrt mesh ss s).index = s.index := rfl

theorem setup_step_preserves (msqrt : ℚ → ℚ) (mesh : Mesh) (ss : List Seed) (i : ℕ)
    (hi : i < ss.length) (hinv : SeedsInv mesh ss) :
    SeedsInv mesh (ss.set i (Seed.setup msqrt mesh ss (ss.getD i default))) := by
  obtain ⟨hvalid, hpair⟩ := hinv
  have hsv : validSeed mesh.size (ss.getD i default) :=
    hvalid _ (seed_getD_mem ss i hi)
  obtain ⟨hestnd, hnbrnd, hestlt, hnbrlt, hdisj, hidx, hprops⟩ := hsv
  have hself : sharesPropB (ss.getD i default).props
      (ss.getD i default).props = true := sharesPropB_self _ hprops
  have hsmem : ss.getD i default ∈ ss := seed_getD_mem ss i hi
  obtain ⟨new, hnewdef⟩ : ∃ new, new = freeCandidates (ss.getD i default).props ss
      (findNeighbors mesh (ss.getD i default).index) := ⟨_, rfl⟩
  have hnbr' : (Seed.setup msqrt mesh ss (ss.getD i default)).neighbors =
      (ss.getD i default).neighbors ++ new := by
    rw [setup_neighbors, hnewdef]
  have hnew_spec : ∀ m ∈ new,
      m ∈ findNeighbors mesh (ss.getD i default).index
      ∧ (∀ t ∈ ss, sharesPropB (ss.getD i default).props t.props = true →
          m ∉ t.estimate)
      ∧ (∀ t ∈ ss, sharesPropB (ss.getD i default).props t.props = true →
          m ∉ t.neighbors) := by
    intro m hm
    rw [hnewdef] at hm
    exact (freeCandidates_mem_iff _ _ _ m).mp hm
  have hnew_lt : ∀ m ∈ new, m < mesh.size :=
    fun m hm => findNeighbors_lt mesh _ hidx m (hnew_spec m hm).1
  have hnew_nodup : new.Nodup := by
    rw [hnewdef]
    exact freeCandidates_nodup _ _ _ (findNeighbors_nodup mesh _ hidx)
  have hnew_est_self : ∀ m ∈ new, m ∉ (ss.getD i default).estimate :=
    fun m hm => (hnew_spec m hm).2.1 _ hsmem hself
  have hnew_nbr_self : ∀ m ∈ new, m ∉ (ss.getD i default).neighbors :=
    fun m hm => (hnew_spec m hm).2.2 _ hsmem hself
  constructor
  · intro t ht
    rcases List.mem_or_eq_of_mem_set ht with htold | hteq
    · exact hvalid t htold
    · subst hteq
      refine ⟨?_, ?_, ?_, ?_, ?_, ?_, ?_⟩
      · rw [setup_estimate]
        exact hestnd
      · rw [hnbr']
        exact List.Nodup.append hnbrnd hnew_nodup
          (fun a ha hb => hnew_nbr_self a hb ha)
      · rw [setup_estimate]
        exact hestlt
      · rw [hnbr']
        intro a ha
        rcases List.mem_append.mp ha with h | h
        · exact hnbrlt a h
        · exact hnew_lt a h
      · rw [hnbr', setup_estimate]
        intro a ha
        rcases List.mem_append.mp ha with h | h
        · exact hdisj a h
        · exact hnew_est_self a h
      · rw [setup_index]
        exact hidx
      · rw [setup_props]
        exact hprops
  · intro j k hj hk hjk hsh
    rw [List.length_set] at hj hk
    by_cases hji : j = i
    · subst hji
      have hki : k ≠ j := fun hc => hjk (hc ▸ rfl)
      rw [getD_set_self ss j _ hj, getD_set_ne ss j k _ hki] at hsh ⊢
      rw [setup_props] at hsh
      have hpjk := hpair j k hj hk hjk hsh
      have hkmem : ss.getD k default ∈ ss := seed_getD_mem ss k hk
      refine ⟨?_, ?_, ?_, ?_⟩
      · rw [setup_estimate]
        exact hpjk.1
      · rw [hnbr']
        intro a ha
        rcases List.mem_append.mp ha with h | h
        · exact hpjk.2.1 a h
        · exact (hnew_spec a h).2.2 _ hkmem hsh
      · rw [setup_estimate]
        exact hpjk.2.2.1
      · rw [hnbr']
        intro a ha
        rcases List.mem_append.mp ha with h | h
        · exact hpjk.2.2.2 a h
        · exact (hnew_spec a h).2.1 _ hkmem hsh
    · by_cases hki : k = i
      · subst hki
        rw [getD_set_ne ss k j _ hji, getD_set_self ss k _ hk] at hsh ⊢
        rw [setup_props] at hsh
        have hpji := hpair j k hj hk hjk hsh
        have hshik : sharesPropB (ss.getD k default).props
            (ss.getD j default).props = true := sharesPropB_symm _ _ hsh
        have hjmem : ss.getD j default ∈ ss := seed_getD_mem ss j hj
        refine ⟨?_, ?_, ?_, ?_⟩
        · rw [setup_estimate]
          exact hpji.1
        · rw [hnbr']
          intro a ha hc
          rcases List.mem_append.mp hc with h | h
          · exact hpji.2.1 a ha h
          · exact (hnew_spec a h).2.2 _ hjmem hshik ha
        · rw [hnbr']
          intro a ha hc
          rcases List.mem_append.mp hc with h | h
          · exact hpji.2.2.1 a ha h
          · exact (hnew_spec a h).2.1 _ hjmem hshik ha
        · rw [setup_estimate]
          exact hpji.2.2.2
      · rw [getD_set_ne ss i j _ hji, getD_set_ne ss i k _ hki] at hsh ⊢
        exact hpair j k hj hk hjk hsh

theorem setupAll_go (msqrt : ℚ → ℚ) (mesh : Mesh) :
    ∀ (idxs : List ℕ) (ss : List Seed),
      (∀ j ∈ idxs, j < ss.length) → SeedsInv mesh ss →
      SeedsInv mesh (idxs.foldl
        (fun ss i => ss.set i (Seed.setup msqrt mesh ss (ss.getD i default))) ss)
      ∧ (idxs.foldl
          (fun ss i => ss.set i (Seed.setup msqrt mesh ss (ss.getD i default)))
          ss).length = ss.length := by
  intro idxs
  induction idxs with
  | nil =>
      intro ss _ hinv
      exact ⟨hinv, rfl⟩
  | cons i idxs ih =>
      intro ss hidx hinv
      rw [List.foldl_cons]
      have hi : i < ss.length := hidx i (by simp)
      have h1 := setup_step_preserves msqrt mesh ss i hi hinv
      have hlen : (ss.set i (Seed.setup msqrt mesh ss (ss.getD i default))).length
          = ss.length := by simp
      obtain ⟨c1, c2⟩ := ih (ss.set i (Seed.setup msqrt mesh ss (ss.getD i default)))
        (fun j hj => by rw [hlen]; exact hidx j (by simp [hj])) h1
      exact ⟨c1, by rw [c2, hlen]⟩

theorem setupAllSeeds_inv (msqrt : ℚ → ℚ) (mesh : Mesh) (seeds : List Seed)
    (h : SeedsInv mesh seeds) : SeedsInv mesh (setupAllSeeds msqrt mesh seeds) := by
  unfold setupAllSeeds
  exact (setupAll_go msqrt mesh (List.range seeds.length) seeds
    (fun j hj => List.mem_range.mp hj) h).1

/-- Seeds as `SeedPrism.__init__` produces them: singleton estimate at the
seed's own in-mesh cell, empty frontier, nonempty property dictionary; and
property-sharing seeds are placed at distinct cells. -/
def FreshSeeds (mesh : Mesh) (seeds : List Seed) : Prop :=
  (∀ s ∈ seeds, s.estimate = [s.index] ∧ s.neighbors = ([] : List ℕ)
    ∧ s.index < mesh.size ∧ s.props ≠ [])
  ∧ ∀ i, i < seeds.length → ∀ j, j < seeds.length → i ≠ j →
      sharesPropB (seeds.getD i default).props (seeds.getD j default).props = true →
      (seeds.getD i default).index ≠ (seeds.getD j default).index

instance (mesh : Mesh) (seeds : List Seed) : Decidable (FreshSeeds mesh seeds) := by
  unfold FreshSeeds
  infer_instance

theorem fresh_inv (mesh : Mesh) (seeds : List Seed) (h : FreshSeeds mesh seeds) :
    SeedsInv mesh seeds := by
  obtain ⟨h1, h2⟩ := h
  constructor
  · intro s hs
    obtain ⟨he, hn, hidx, hp⟩ := h1 s hs
    refine ⟨?_, ?_, ?_, ?_, ?_, hidx, hp⟩
    · rw [he]
      exact List.nodup_singleton _
    · rw [hn]
      exact List.nodup_nil
    · intro n hn'
      rw [he, List.mem_singleton] at hn'
      subst hn'
      exact hidx
    · intro n hn'
      rw [hn] at hn'
      cases hn'
    · intro n hn'
      rw [hn] at hn'
      cases hn'
  · intro i j hi hj hij hsh
    obtain ⟨hei, hni, hidxi, _⟩ := h1 _ (seed_getD_mem seeds i hi)
    obtain ⟨hej, hnj, _, _⟩ := h1 _ (seed_getD_mem seeds j hj)
    have hne := h2 i hi j hj hij hsh
    refine ⟨?_, ?_, ?_, ?_⟩
    · intro n hn'
      rw [hei, List.mem_singleton] at hn'
      subst hn'
      rw [hej, List.mem_singleton]
      exact hne
    · intro n hn'
      rw [hni] at hn'
      cases hn'
    · intro n hn'
      rw [hnj]
      exact List.not_mem_nil _
    · intro n hn'
      rw [hni] at hn'
      cases hn'

theorem harvestSetup_ok_spec (msqrt : ℚ → ℚ) (mesh : Mesh) (dms : List DM)
    (seeds : List Seed) (st0 : SolverState)
    (h : harvestSetup msqrt mesh dms seeds = .ok st0) :
    st0.seeds = setupAllSeeds msqrt mesh seeds ∧ st0.misfits.length = 1 := by
  cases seeds with
  | nil => simp [harvestSetup] at h
  | cons s0 rest =>
      simp only [harvestSetup] at h
      split at h
      · cases h
      · injection h with h'
        rw [← h']
        exact ⟨rfl, rfl⟩

/-- C1, amended: the cell-exclusivity invariant holds exactly for seeds
that share a physical property — which is what the `_in_estimate` /
`_is_neighbor` exclusion rules enforce (and all they enforce; see the
counterexample for property-disjoint seeds).  For any data modules, any
mesh, and fresh seeds as the constructor produces them (singleton estimate
at an in-mesh cell, empty frontier, nonempty properties, property-sharing
pairs at distinct cells), after setup, at every round of the solver loop
and in the final solver state, the estimates of two property-sharing seeds
are disjoint: no cell appears in both. -/
theorem claim_C1_amended (msqrt : ℚ → ℚ) (mesh : Mesh) (dms : List DM)
    (seeds : List Seed) (st0 : SolverState)
    (hfresh : FreshSeeds mesh seeds)
    (h0 : harvestSetup msqrt mesh dms seeds = .ok st0) :
    (∀ k i j, i ≠ j →
      i < (roundIter msqrt mesh st0 k).seeds.length →
      j < (roundIter msqrt mesh st0 k).seeds.length →
      sharesPropB ((roundIter msqrt mesh st0 k).seeds.getD i default).props
        ((roundIter msqrt mesh st0 k).seeds.getD j default).props = true →
      ∀ n ∈ ((roundIter msqrt mesh st0 k).seeds.getD i default).estimate,
        n ∉ ((roundIter msqrt mesh st0 k).seeds.getD j default).estimate)
    ∧ (∀ i j, i ≠ j →
      i < (harvestSolver msqrt mesh st0).1.seeds.length →
      j < (harvestSolver msqrt mesh st0).1.seeds.length →
      sharesPropB ((harvestSolver msqrt mesh st0).1.seeds.getD i default).props
        ((harvestSolver msqrt mesh st0).1.seeds.getD j default).props = true →
      ∀ n ∈ ((harvestSolver msqrt mesh st0).1.seeds.getD i default).estimate,
        n ∉ ((harvestSolver msqrt mesh st0).1.seeds.getD j default).estimate) := by
  have hst0 : SeedsInv mesh st0.seeds := by
    rw [(harvestSetup_ok_spec msqrt mesh dms seeds st0 h0).1]
    exact setupAllSeeds_inv msqrt mesh seeds (fresh_inv mesh seeds hfresh)
  constructor
  · intro k i j hij hi hj hsh
    exact ((roundIter_inv msqrt mesh st0 k hst0).2 i j hi hj hij hsh).1
  · intro i j hij hi hj hsh
    exact (((harvestSolver_master msqrt mesh st0 hst0).1).2 i j hi hj hij hsh).1

/-- C5, amended: termination with the corrected bound.  An accepted growth
can accrete a cell already claimed by a property-disjoint seed (see the
counterexample), so total accretions are not bounded by the mesh size
alone; they are bounded by #seeds × mesh-size, because each accepted
growth appends a cell new to the growing seed's duplicate-free, in-mesh
estimate.  Under the fresh-seed hypotheses the loop halts properly within
its fuel (the flag is `true`: the final round produced zero growths), the
misfit trajectory gains exactly one entry per accretion, and its final
length is at most `1 + #seeds * mesh.size`. -/
theorem claim_C5_amended (msqrt : ℚ → ℚ) (mesh : Mesh) (dms : List DM)
    (seeds : List Seed) (st0 : SolverState)
    (hfresh : FreshSeeds mesh seeds)
    (h0 : harvestSetup msqrt mesh dms seeds = .ok st0) :
    (harvestSolver msqrt mesh st0).2 = true
    ∧ (harvestSolver msqrt mesh st0).1.misfits.length + estSize st0.seeds
        = 1 + estSize (harvestSolver msqrt mesh st0).1.seeds
    ∧ (harvestSolver msqrt mesh st0).1.misfits.length
        ≤ 1 + st0.seeds.length * mesh.size := by
  obtain ⟨hs, hm1⟩ := harvestSetup_ok_spec msqrt mesh dms seeds st0 h0
  have hst0 : SeedsInv mesh st0.seeds := by
    rw [hs]
    exact setupAllSeeds_inv msqrt mesh seeds (fresh_inv mesh seeds hfresh)
  obtain ⟨c1, c2, c3, c4⟩ := harvestSolver_master msqrt mesh st0 hst0
  refine ⟨c4, by omega, ?_⟩
  have hle := estSize_le_of_valid mesh (harvestSolver msqrt mesh st0).1.seeds c1.1
  rw [c2] at hle
  omega

/-- The same two-cell row mesh with two seeds that SHARE the density
property, placed at the two distinct cells. -/
def seedRowC : Seed := mkSeedPrism meshRow2 0 [(densityKey, 1)] 0 (1 / 10000) true

/-- The second density seed, at cell 1. -/
def seedRowD : Seed := mkSeedPrism meshRow2 1 [(densityKey, 2)] 0 (1 / 10000) true

/-- The setup result of the property-sharing two-seed run. -/
def setupShare : Except HarvestError SolverState :=
  harvestSetup id meshRow2 [dmRow] [seedRowC, seedRowD]

/-- The initial solver state of the property-sharing two-seed run. -/
def stShare : SolverState :=
  match setupShare with
  | .ok st => st
  | .error _ => { dms := [], seeds := [], goals := [], misfits := [] }

/-- Witness for the amended C1 theorem: the two-cell run with two
density-sharing seeds at cells 0 and 1 satisfies the fresh-seed
hypotheses, its setup succeeds, and in its final state the two estimates
are indeed disjoint. -/
theorem claim_C1_witness :
    FreshSeeds meshRow2 [seedRowC, seedRowD]
    ∧ harvestSetup id meshRow2 [dmRow] [seedRowC, seedRowD] = .ok stShare
    ∧ (∀ n ∈ ((harvestSolver id meshRow2 stShare).1.seeds.getD 0 default).estimate,
        n ∉ ((harvestSolver id meshRow2 stShare).1.seeds.getD 1 default).estimate) := by
  have hf : FreshSeeds meshRow2 [seedRowC, seedRowD] := by
    with_unfolding_all decide
  have h0 : harvestSetup id meshRow2 [dmRow] [seedRowC, seedRowD] = .ok stShare := by
    with_unfolding_all rfl
  refine ⟨hf, h0, ?_⟩
  exact (claim_C1_amended id meshRow2 [dmRow] [seedRowC, seedRowD] stShare hf h0).2
    0 1 (by decide) (by with_unfolding_all decide) (by with_unfolding_all decide)
    (by with_unfolding_all decide)

/-- Witness for the amended C5 theorem: the density-sharing two-seed run
satisfies the fresh-seed hypotheses and the solver halts properly with the
misfit-trajectory accounting of the theorem. -/
theorem claim_C5_witness :
    FreshSeeds meshRow2 [seedRowC, seedRowD]
    ∧ harvestSetup id meshRow2 [dmRow] [seedRowC, seedRowD] = .ok stShare
    ∧ ((harvestSolver id meshRow2 stShare).2 = true
      ∧ (harvestSolver id meshRow2 stShare).1.misfits.length + estSize stShare.seeds
          = 1 + estSize (harvestSolver id meshRow2 stShare).1.seeds
      ∧ (harvestSolver id meshRow2 stShare).1.misfits.length
          ≤ 1 + stShare.seeds.length * meshRow2.size) := by
  have hf : FreshSeeds meshRow2 [seedRowC, seedRowD] := by
    with_unfolding_all decide
  have h0 : harvestSetup id meshRow2 [dmRow] [seedRowC, seedRowD] = .ok stShare := by
    with_unfolding_all rfl
  exact ⟨hf, h0, claim_C5_amended id meshRow2 [dmRow] [seedRowC, seedRowD] stShare hf h0⟩

end FatiandoSpec
